import Mathlib

set_option linter.unusedVariables false
set_option linter.unnecessarySeqFocus false
set_option linter.unreachableTactic false
set_option linter.unusedTactic false

/-! Shallow embedding of the elevator dispatch core of this repository:
the class OptimizedScanController of elevator_planner.py and the class
IntelligentDispatchController of algorithm_only.py.

Modelling conventions: Python float scores are modelled exactly over the
rationals (the source only adds, subtracts and scales by the literals 2,
0.5, 0.3 and 0.1, so signs and all comparisons used in the development
are unaffected by binary rounding); Python sets become Finset Nat; Python
lists become List Nat; Python dicts indexed by elevator id become
functions out of Nat updated with Function.update; per-elevator
passenger-destination dicts become finite sets of (passengerId,
destination) pairs with unique keys. -/

/-- A hall-call / travel direction, the strings "up" and "down" of the source. -/
inductive Dir
  | up
  | down
deriving DecidableEq, Repr

/-- Direction reversal used by the SCAN replanner. -/
def Dir.flip : Dir → Dir
  | .up => .down
  | .down => .up

/-- Lifecycle states of OptimizedScanController (self.elevator_states values). -/
inductive LifecycleState
  | resting
  | scanning
deriving DecidableEq, Repr

/-- Snapshot of a ProxyElevator as consumed by OptimizedScanController:
id, current floor, and the passenger count len(elevator.passengers). -/
structure Elev where
  id : Nat
  currentFloor : Nat
  passengerCount : Nat
deriving DecidableEq, Repr

/-- An emitted move command, elevator.go_to_floor(floor). -/
structure Cmd where
  car : Nat
  floor : Nat
deriving DecidableEq, Repr

/-- Python min() over a set, 0 on the empty set (the source only applies
min to nonempty sets). -/
def setMin (s : Finset Nat) : Nat := s.min.untop' 0

/-- Python max() over a set, 0 on the empty set (the source only applies
max to nonempty sets). -/
def setMax (s : Finset Nat) : Nat := s.max.unbot' 0

theorem setMin_eq_min' (s : Finset Nat) (h : s.Nonempty) : setMin s = s.min' h := by
  unfold setMin
  rw [← Finset.coe_min' h]
  rfl

theorem setMax_eq_max' (s : Finset Nat) (h : s.Nonempty) : setMax s = s.max' h := by
  unfold setMax
  rw [← Finset.coe_max' h]
  rfl

theorem setMin_mem (s : Finset Nat) (h : s.Nonempty) : setMin s ∈ s := by
  rw [setMin_eq_min' s h]; exact s.min'_mem h

theorem setMin_le (s : Finset Nat) (b : Nat) (hb : b ∈ s) : setMin s ≤ b := by
  rw [setMin_eq_min' s ⟨b, hb⟩]; exact s.min'_le b hb

theorem setMax_mem (s : Finset Nat) (h : s.Nonempty) : setMax s ∈ s := by
  rw [setMax_eq_max' s h]; exact s.max'_mem h

theorem le_setMax (s : Finset Nat) (b : Nat) (hb : b ∈ s) : b ≤ setMax s := by
  rw [setMax_eq_max' s ⟨b, hb⟩]; exact s.le_max' b hb

/-- Python min() over a list, 0 on the empty list (only applied to nonempty). -/
def listMin : List Nat → Nat
  | [] => 0
  | x :: xs => xs.foldl min x

/-- Python max() over a list, 0 on the empty list (only applied to nonempty). -/
def listMax : List Nat → Nat
  | [] => 0
  | x :: xs => xs.foldl max x

theorem foldl_min_le_init : ∀ (xs : List Nat) (a : Nat), xs.foldl min a ≤ a := by
  intro xs
  induction xs with
  | nil => intro a; exact le_rfl
  | cons x xs ih =>
    intro a
    calc (x :: xs).foldl min a = xs.foldl min (min a x) := rfl
    _ ≤ min a x := ih (min a x)
    _ ≤ a := min_le_left a x

theorem foldl_min_le_mem : ∀ (xs : List Nat) (a b : Nat), b ∈ xs → xs.foldl min a ≤ b := by
  intro xs
  induction xs with
  | nil => intro a b hb; cases hb
  | cons x xs ih =>
    intro a b hb
    rcases List.mem_cons.mp hb with h | h
    · subst h
      calc (b :: xs).foldl min a = xs.foldl min (min a b) := rfl
      _ ≤ min a b := foldl_min_le_init xs (min a b)
      _ ≤ b := min_le_right a b
    · exact ih (min a x) b h

theorem foldl_min_mem : ∀ (xs : List Nat) (a : Nat), xs.foldl min a = a ∨ xs.foldl min a ∈ xs := by
  intro xs
  induction xs with
  | nil => intro a; exact Or.inl rfl
  | cons x xs ih =>
    intro a
    rcases ih (min a x) with h | h
    · rcases Nat.le_total a x with hax | hxa
      · left
        simpa [min_eq_left hax] using h
      · right
        simp only [List.foldl_cons]
        rw [h, min_eq_right hxa]
        exact List.mem_cons_self x xs
    · right
      exact List.mem_cons_of_mem x h

theorem listMin_mem (xs : List Nat) (h : xs ≠ []) : listMin xs ∈ xs := by
  cases xs with
  | nil => exact absurd rfl h
  | cons x xs =>
    rcases foldl_min_mem xs x with h1 | h1
    · rw [listMin, h1]; exact List.mem_cons_self x xs
    · exact List.mem_cons_of_mem x h1

theorem listMin_le (xs : List Nat) (b : Nat) (hb : b ∈ xs) : listMin xs ≤ b := by
  cases xs with
  | nil => cases hb
  | cons x xs =>
    rcases List.mem_cons.mp hb with h | h
    · subst h; exact foldl_min_le_init xs b
    · exact foldl_min_le_mem xs x b h

theorem foldl_max_init_le : ∀ (xs : List Nat) (a : Nat), a ≤ xs.foldl max a := by
  intro xs
  induction xs with
  | nil => intro a; exact le_rfl
  | cons x xs ih =>
    intro a
    calc a ≤ max a x := le_max_left a x
    _ ≤ xs.foldl max (max a x) := ih (max a x)
    _ = (x :: xs).foldl max a := rfl

theorem foldl_max_mem_le : ∀ (xs : List Nat) (a b : Nat), b ∈ xs → b ≤ xs.foldl max a := by
  intro xs
  induction xs with
  | nil => intro a b hb; cases hb
  | cons x xs ih =>
    intro a b hb
    rcases List.mem_cons.mp hb with h | h
    · subst h
      calc b ≤ max a b := le_max_right a b
      _ ≤ xs.foldl max (max a b) := foldl_max_init_le xs (max a b)
      _ = (b :: xs).foldl max a := rfl
    · exact ih (max a x) b h

theorem foldl_max_mem : ∀ (xs : List Nat) (a : Nat), xs.foldl max a = a ∨ xs.foldl max a ∈ xs := by
  intro xs
  induction xs with
  | nil => intro a; exact Or.inl rfl
  | cons x xs ih =>
    intro a
    rcases ih (max a x) with h | h
    · rcases Nat.le_total a x with hax | hxa
      · right
        simp only [List.foldl_cons]
        rw [h, max_eq_right hax]
        exact List.mem_cons_self x xs
      · left
        simpa [max_eq_left hxa] using h
    · right
      exact List.mem_cons_of_mem x h

theorem listMax_mem (xs : List Nat) (h : xs ≠ []) : listMax xs ∈ xs := by
  cases xs with
  | nil => exact absurd rfl h
  | cons x xs =>
    rcases foldl_max_mem xs x with h1 | h1
    · rw [listMax, h1]; exact List.mem_cons_self x xs
    · exact List.mem_cons_of_mem x h1

theorem le_listMax (xs : List Nat) (b : Nat) (hb : b ∈ xs) : b ≤ listMax xs := by
  cases xs with
  | nil => cases hb
  | cons x xs =>
    rcases List.mem_cons.mp hb with h | h
    · subst h; exact foldl_max_init_le xs b
    · exact foldl_max_mem_le xs x b h

/-- Python dict deletion (del d[k] guarded by k in d) over a set of
(key, value) pairs. -/
def dictErase (d : Finset (Nat × Nat)) (k : Nat) : Finset (Nat × Nat) :=
  d.filter (fun p => p.1 ≠ k)

/-- Mutable controller state of OptimizedScanController.  The per-elevator
dicts of the source are modelled as functions out of the elevator id. -/
@[ext]
structure PlannerState where
  directions : Nat → Dir
  targetFloors : Nat → Finset Nat
  passengerDests : Nat → Finset (Nat × Nat)
  upRequests : Finset Nat
  downRequests : Finset Nat
  restingFloors : Nat → Nat
  states : Nat → LifecycleState

/-- self.floor_requests[direction] of the source. -/
def PlannerState.requests (s : PlannerState) : Dir → Finset Nat
  | .up => s.upRequests
  | .down => s.downRequests

/-- _calculate_resting_floor of elevator_planner.py: Python int() of
nonnegative float arithmetic is the floor of the exact rational value. -/
def calculateRestingFloor (maxFloor elevatorIndex totalElevators : Nat) : Nat :=
  if totalElevators = 1 then maxFloor / 2
  else
    let segmentSize : ℚ := (maxFloor + 1) / totalElevators
    min (Int.toNat ⌊(elevatorIndex : ℚ) * segmentSize + segmentSize / 2⌋) maxFloor

/-- Registration of a call in self.floor_requests, the first effect of
on_passenger_call of elevator_planner.py. -/
def registerCall (s : PlannerState) (floorNum : Nat) (d : Dir) : PlannerState :=
  match d with
  | .up => { s with upRequests := insert floorNum s.upRequests }
  | .down => { s with downRequests := insert floorNum s.downRequests }

/-- _is_direction_matching of elevator_planner.py. -/
def isDirectionMatching (currentFloor requestFloor : Nat) (currentDirection : Dir) : Bool :=
  match currentDirection with
  | .up => currentFloor ≤ requestFloor
  | .down => requestFloor ≤ currentFloor

/-- _is_on_the_way of elevator_planner.py. -/
def isOnTheWay (currentFloor currentTarget requestFloor : Nat) (direction : Dir) : Bool :=
  match direction with
  | .up => currentFloor ≤ requestFloor && requestFloor ≤ currentTarget
  | .down => requestFloor ≤ currentFloor && currentTarget ≤ requestFloor

/-- The current primary target of _find_working_elevator_candidate:
min of the target set when heading up, max when heading down. -/
def primaryTarget (s : PlannerState) (eid : Nat) : Nat :=
  match s.directions eid with
  | .up => setMin (s.targetFloors eid)
  | .down => setMax (s.targetFloors eid)

/-- benefit = abs(cur - target) - abs(cur - request) of
_find_working_elevator_candidate. -/
def benefitOf (s : PlannerState) (requestFloor : Nat) (e : Elev) : Int :=
  |(e.currentFloor : Int) - primaryTarget s e.id| - |(e.currentFloor : Int) - requestFloor|

/-- Loop body of _find_working_elevator_candidate: examine one elevator and
keep the strictly better candidate. -/
def candidateStep (s : PlannerState) (requestFloor : Nat)
    (best : Option (Int × Nat × Nat)) (e : Elev) : Option (Int × Nat × Nat) :=
  if s.states e.id ≠ LifecycleState.scanning then best
  else if s.targetFloors e.id = ∅ then best
  else if isDirectionMatching e.currentFloor requestFloor (s.directions e.id)
      && isOnTheWay e.currentFloor (primaryTarget s e.id) requestFloor (s.directions e.id) then
    let benefit := benefitOf s requestFloor e
    let bestBenefit : Int := match best with | none => 0 | some (b, _, _) => b
    if 0 < benefit ∧ bestBenefit < benefit then some (benefit, e.id, e.passengerCount)
    else best
  else best

/-- _find_working_elevator_candidate of elevator_planner.py.  The result
carries (benefit, elevator id, passenger count); the direction argument is
accepted but, as in the source, never consulted. -/
def findWorkingElevatorCandidate (s : PlannerState) (fleet : List Elev)
    (requestFloor : Nat) (direction : Dir) : Option (Int × Nat × Nat) :=
  fleet.foldl (candidateStep s requestFloor) none

/-- The resting-elevator selection of _smart_assign_elevator: the stable
sort by distance followed by taking the first element keeps, among minimal
distances, the earliest elevator in fleet order. -/
def closestStep (requestFloor : Nat) (best : Option Elev) (e : Elev) : Option Elev :=
  match best with
  | Option.none => some e
  | some b =>
    if Nat.dist e.currentFloor requestFloor < Nat.dist b.currentFloor requestFloor then some e
    else best

def pickClosestResting (s : PlannerState) (fleet : List Elev) (requestFloor : Nat) : Option Elev :=
  (fleet.filter (fun e => decide (s.states e.id = LifecycleState.resting))).foldl
    (closestStep requestFloor) Option.none

/-- _redirect_elevator of elevator_planner.py: keep existing targets, add the
new one, issue no command and leave the direction alone. -/
def redirectElevator (s : PlannerState) (eid requestFloor : Nat) : PlannerState :=
  { s with targetFloors :=
      Function.update s.targetFloors eid (insert requestFloor (s.targetFloors eid)) }

/-- _wake_up_elevator of elevator_planner.py. -/
def wakeUpElevator (s : PlannerState) (e : Elev) (requestFloor : Nat) (direction : Dir) :
    PlannerState × List Cmd :=
  let newDir :=
    if e.currentFloor < requestFloor then Dir.up
    else if requestFloor < e.currentFloor then Dir.down
    else direction
  ({ s with
      states := Function.update s.states e.id LifecycleState.scanning,
      directions := Function.update s.directions e.id newDir,
      targetFloors := Function.update s.targetFloors e.id
        (insert requestFloor (s.targetFloors e.id)) },
    [⟨e.id, requestFloor⟩])

/-- _smart_assign_elevator of elevator_planner.py. -/
def smartAssignElevator (s : PlannerState) (fleet : List Elev) (requestFloor : Nat)
    (direction : Dir) : PlannerState × List Cmd :=
  match findWorkingElevatorCandidate s fleet requestFloor direction with
  | some (_, eid, _) => (redirectElevator s eid requestFloor, [])
  | none =>
    match pickClosestResting s fleet requestFloor with
    | some e => wakeUpElevator s e requestFloor direction
    | none => (s, [])

/-- on_passenger_call of elevator_planner.py: register the request, then
run the smart assignment. -/
def onPassengerCall (s : PlannerState) (fleet : List Elev) (floorNum : Nat) (direction : Dir) :
    PlannerState × List Cmd :=
  smartAssignElevator (registerCall s floorNum direction) fleet floorNum direction

/-- Strict comparison "floor f lies ahead of floor cur in direction d". -/
def aheadOf (d : Dir) (f cur : Nat) : Bool :=
  match d with
  | .up => cur < f
  | .down => f < cur

/-- _get_floors_in_direction of elevator_planner.py: onboard destinations
strictly ahead, plus every floor strictly ahead holding a pending hall call
in either direction. -/
def getFloorsInDirection (s : PlannerState) (eid cur : Nat) (direction : Dir) : Finset Nat :=
  let internal := ((s.passengerDests eid).filter (fun p => aheadOf direction p.2 cur)).image Prod.snd
  let external := (s.upRequests ∪ s.downRequests).filter (fun f => aheadOf direction f cur)
  internal ∪ external

/-- _enter_resting_state of elevator_planner.py: record the state and the
new resting floor; the target set is NOT touched here. -/
def enterRestingState (s : PlannerState) (e : Elev) : PlannerState :=
  { s with
      states := Function.update s.states e.id LifecycleState.resting,
      restingFloors := Function.update s.restingFloors e.id e.currentFloor }

/-- _has_pending_requests of elevator_planner.py. -/
def hasPendingRequests (s : PlannerState) : Prop :=
  s.upRequests ≠ ∅ ∨ s.downRequests ≠ ∅

instance (s : PlannerState) : Decidable (hasPendingRequests s) := by
  unfold hasPendingRequests; infer_instance

/-- _has_internal_requests of elevator_planner.py. -/
def hasInternalRequests (s : PlannerState) (eid : Nat) : Prop :=
  s.passengerDests eid ≠ ∅

instance (s : PlannerState) (eid : Nat) : Decidable (hasInternalRequests s eid) := by
  unfold hasInternalRequests; infer_instance

/-- The SCAN next-stop selection: min of the pool when heading up, max
when heading down (the two match arms of _assign_next_floor). -/
def scanSel (d : Dir) (pool : Finset Nat) : Nat :=
  match d with
  | .up => setMin pool
  | .down => setMax pool

/-- _assign_next_floor of elevator_planner.py, the SCAN replanner. -/
def assignNextFloor (s : PlannerState) (e : Elev) : PlannerState × List Cmd :=
  let direction := s.directions e.id
  let tf := getFloorsInDirection s e.id e.currentFloor direction
  if tf ≠ ∅ then
    let nextFloor := scanSel direction tf
    ({ s with targetFloors :=
        Function.update s.targetFloors e.id (insert nextFloor (s.targetFloors e.id)) },
      [⟨e.id, nextFloor⟩])
  else
    let newDirection := direction.flip
    let s1 := { s with directions := Function.update s.directions e.id newDirection }
    let ntf := getFloorsInDirection s1 e.id e.currentFloor newDirection
    if ntf ≠ ∅ then
      let nextFloor := scanSel newDirection ntf
      ({ s1 with targetFloors :=
          Function.update s1.targetFloors e.id (insert nextFloor (s1.targetFloors e.id)) },
        [⟨e.id, nextFloor⟩])
    else
      (enterRestingState s1 e, [])

/-- on_elevator_idle of elevator_planner.py. -/
def onElevatorIdle (s : PlannerState) (e : Elev) : PlannerState × List Cmd :=
  let s1 := { s with targetFloors := Function.update s.targetFloors e.id ∅ }
  if hasPendingRequests s1 ∨ hasInternalRequests s1 e.id then
    assignNextFloor { s1 with states := Function.update s1.states e.id LifecycleState.scanning } e
  else
    (enterRestingState s1 e, [])

/-- on_elevator_stopped of elevator_planner.py. -/
def onElevatorStopped (s : PlannerState) (e : Elev) (floorNum : Nat) : PlannerState × List Cmd :=
  let direction := s.directions e.id
  let s1 := { s with targetFloors :=
      Function.update s.targetFloors e.id ((s.targetFloors e.id).erase floorNum) }
  let s2 := match direction with
    | .up => { s1 with upRequests := s1.upRequests.erase floorNum }
    | .down => { s1 with downRequests := s1.downRequests.erase floorNum }
  if hasPendingRequests s2 ∨ hasInternalRequests s2 e.id then
    assignNextFloor { s2 with states := Function.update s2.states e.id LifecycleState.scanning } e
  else
    (enterRestingState s2 e, [])

/-- on_passenger_board of elevator_planner.py. -/
def plannerOnPassengerBoard (s : PlannerState) (eid pid destination : Nat) : PlannerState :=
  let newDests := insert (pid, destination) (dictErase (s.passengerDests eid) pid)
  let s1 := { s with passengerDests := Function.update s.passengerDests eid newDests }
  if s1.states eid = LifecycleState.resting then
    { s1 with states := Function.update s1.states eid LifecycleState.scanning }
  else s1

/-- on_passenger_alight of elevator_planner.py: only the recorded
destination of that passenger is discarded. -/
def plannerOnPassengerAlight (s : PlannerState) (eid pid floorNum : Nat) : PlannerState :=
  { s with passengerDests :=
      Function.update s.passengerDests eid (dictErase (s.passengerDests eid) pid) }

/-! ## IntelligentDispatchController of algorithm_only.py -/

/-- self.unit_heading values "up", "down", "none" of algorithm_only.py. -/
inductive Heading
  | up
  | down
  | none
deriving DecidableEq, Repr

/-- self.unit_state values "idle", "moving", "loading" of algorithm_only.py. -/
inductive UnitState
  | idle
  | moving
  | loading
deriving DecidableEq, Repr

/-- Snapshot of a ProxyElevator as consumed by IntelligentDispatchController:
id, current floor, passenger count, and the target_floor attribute (None or
a floor; Python truthiness makes floor 0 behave like None in
_calculate_score). -/
structure AlgoElev where
  id : Nat
  currentFloor : Nat
  passengers : Nat
  targetFloor : Option Nat
deriving DecidableEq, Repr

/-- One self.user_data record of algorithm_only.py. -/
structure UserRec where
  origin : Nat
  destination : Nat
  arriveTick : Nat
  direction : Dir
  completed : Bool
  completedTick : Option Nat
deriving DecidableEq, Repr

/-- Mutable controller state of IntelligentDispatchController (the request
queue and zone bookkeeping included). -/
@[ext]
structure AlgoState where
  unitState : Nat → UnitState
  unitHeading : Nat → Heading
  serviceQueue : Nat → List Nat
  passengerRegistry : Nat → Finset (Nat × Nat)
  elevatorGoals : Nat → Finset (Nat × Nat)
  userData : Nat → Option UserRec
  tick : Option Nat
  zoneAssignment : Nat → Nat × Nat
  unitCapacity : Nat

/-- _calculate_home_position of algorithm_only.py (identical formula to
_calculate_resting_floor of elevator_planner.py). -/
def calculateHomePosition (totalLevels index total : Nat) : Nat :=
  if total = 1 then totalLevels / 2
  else
    let segment : ℚ := (totalLevels + 1) / total
    min (Int.toNat ⌊(index : ℚ) * segment + segment / 2⌋) totalLevels

/-- Python string comparison heading == direction of _calculate_score
("none" equals neither call direction). -/
def headingEqDir : Heading → Dir → Bool
  | .up, .up => true
  | .down, .down => true
  | _, _ => false

/-- _calculate_score of algorithm_only.py, the dispatch scorer.  Float
arithmetic is carried out exactly over the rationals. -/
def calculateScore (st : AlgoState) (unit : AlgoElev) (targetFloor : Nat) (direction : Dir) : ℚ :=
  match st.unitState unit.id with
  | .idle =>
    let distance : ℚ := |(unit.currentFloor : ℚ) - (targetFloor : ℚ)|
    let score : ℚ := 100 - distance * 2
    let zone := st.zoneAssignment unit.id
    if zone.1 ≤ targetFloor ∧ targetFloor ≤ zone.2 then score + 50 else score
  | .moving =>
    if headingEqDir (st.unitHeading unit.id) direction then
      if (st.unitHeading unit.id = Heading.up ∧ unit.currentFloor < targetFloor)
          ∨ (st.unitHeading unit.id = Heading.down ∧ targetFloor < unit.currentFloor) then
        let distance : ℚ := |(unit.currentFloor : ℚ) - (targetFloor : ℚ)|
        let base : ℚ := 80 - distance
        let loadFactor : ℚ := min 1 ((unit.passengers : ℚ) / (st.unitCapacity : ℚ))
        let score : ℚ := base * (1 - loadFactor * (1 / 2))
        match unit.targetFloor with
        | some t =>
          if t ≠ 0 then
            let progress : ℚ := min 1 (distance / max 1 |(unit.currentFloor : ℚ) - (t : ℚ)|)
            score * (1 + progress * (3 / 10))
          else score
        | none => score
      else 0
    else 0
  | .loading => 0

/-- Python tuple comparison on (score, id): candidate c beats the incumbent
b when it sorts strictly later in descending order. -/
def lexBetter (c b : ℚ × Nat) : Prop :=
  b.1 < c.1 ∨ (c.1 = b.1 ∧ b.2 < c.2)

instance (c b : ℚ × Nat) : Decidable (lexBetter c b) := by
  unfold lexBetter; infer_instance

/-- _intelligent_dispatch of algorithm_only.py: collect every elevator with
a positive score, sort the (score, id) tuples in reverse order and take the
first, i.e. the lexicographically greatest pair.  Returns (score, id) of
the winner, None when no candidate exists. -/
def dispatchStep (best : Option (ℚ × Nat)) (c : ℚ × Nat) : Option (ℚ × Nat) :=
  match best with
  | Option.none => some c
  | some b => if lexBetter c b then some c else best

def intelligentDispatch (st : AlgoState) (fleet : List AlgoElev) (targetFloor : Nat)
    (direction : Dir) : Option (ℚ × Nat) :=
  let candidates := fleet.filterMap (fun u =>
    let score := calculateScore st u targetFloor direction
    if 0 < score then some (score, u.id) else Option.none)
  candidates.foldl dispatchStep Option.none

/-- _execute_next of algorithm_only.py, the SCAN step: choose the next stop
from the service queue, update the heading, emit the move command. -/
def executeNext (st : AlgoState) (unit : AlgoElev) : AlgoState × Option Cmd :=
  let queue := st.serviceQueue unit.id
  if queue = [] then
    ({ st with
        unitState := Function.update st.unitState unit.id UnitState.idle,
        unitHeading := Function.update st.unitHeading unit.id Heading.none },
      Option.none)
  else
    let current := unit.currentFloor
    let heading := st.unitHeading unit.id
    if heading = Heading.up ∨ heading = Heading.none then
      let upper := queue.filter (fun f => decide (current < f))
      if upper ≠ [] then
        ({ st with unitHeading := Function.update st.unitHeading unit.id Heading.up },
          some ⟨unit.id, listMin upper⟩)
      else
        let lower := queue.filter (fun f => decide (f < current))
        let nextFloor := if lower ≠ [] then listMax lower else queue.headD 0
        let newHeading := if lower ≠ [] then Heading.down else Heading.none
        ({ st with unitHeading := Function.update st.unitHeading unit.id newHeading },
          some ⟨unit.id, nextFloor⟩)
    else
      let lower := queue.filter (fun f => decide (f < current))
      if lower ≠ [] then
        ({ st with unitHeading := Function.update st.unitHeading unit.id Heading.down },
          some ⟨unit.id, listMax lower⟩)
      else
        let upper := queue.filter (fun f => decide (current < f))
        let nextFloor := if upper ≠ [] then listMin upper else queue.headD 0
        let newHeading := if upper ≠ [] then Heading.up else Heading.none
        ({ st with unitHeading := Function.update st.unitHeading unit.id newHeading },
          some ⟨unit.id, nextFloor⟩)

/-- on_passenger_alight of algorithm_only.py: mark the user record
completed, drop the passenger from both per-car registries, and remove the
floor from the service queue when present (Python list.remove drops the
first occurrence; when the floor is absent the queue is untouched, which is
List.erase). -/
def algoOnPassengerAlight (st : AlgoState) (eid pid floorNum : Nat) : AlgoState :=
  let st1 := match st.userData pid with
    | some r =>
      let r1 := { r with completed := true, completedTick := some (st.tick.getD 0) }
      { st with userData := Function.update st.userData pid (some r1) }
    | Option.none => st
  let newReg := Function.update st1.passengerRegistry eid (dictErase (st1.passengerRegistry eid) pid)
  let st2 := { st1 with passengerRegistry := newReg }
  let newGoals := Function.update st2.elevatorGoals eid (dictErase (st2.elevatorGoals eid) pid)
  let st3 := { st2 with elevatorGoals := newGoals }
  let newQueue := Function.update st3.serviceQueue eid ((st3.serviceQueue eid).erase floorNum)
  { st3 with serviceQueue := newQueue }

/-- Home-floor formula as the specification states it (section 4.2): evenly
distribute total cars, segment = (maxFloor+1)/total, home =
min(floor(index*segment + segment/2), maxFloor), and maxFloor/2 for a
single car. -/
def homeFloorSpec (maxFloor index total : Nat) : Nat :=
  if total = 1 then maxFloor / 2
  else
    let segment : ℚ := (maxFloor + 1) / total
    min (Int.toNat ⌊(index : ℚ) * segment + segment / 2⌋) maxFloor

/-! ## Characterisation of the candidate search of _smart_assign_elevator -/

/-- The candidacy test that one loop iteration of
_find_working_elevator_candidate applies to one elevator: working
(scanning), nonempty target set, direction matching, genuinely on the way
towards the primary target, and strictly positive benefit.  Note that the
call direction does not occur. -/
def Qualifies (s : PlannerState) (requestFloor : Nat) (e : Elev) : Prop :=
  s.states e.id = LifecycleState.scanning ∧
  s.targetFloors e.id ≠ ∅ ∧
  isDirectionMatching e.currentFloor requestFloor (s.directions e.id) = true ∧
  isOnTheWay e.currentFloor (primaryTarget s e.id) requestFloor (s.directions e.id) = true ∧
  0 < benefitOf s requestFloor e

instance (s : PlannerState) (requestFloor : Nat) (e : Elev) :
    Decidable (Qualifies s requestFloor e) := by
  unfold Qualifies; infer_instance

/-- Benefit stored in the accumulator of the candidate loop (0 for None). -/
def accBenefit : Option (Int × Nat × Nat) → Int
  | Option.none => 0
  | some (b, _, _) => b

theorem candidateStep_eq (s : PlannerState) (requestFloor : Nat)
    (best : Option (Int × Nat × Nat)) (e : Elev) :
    candidateStep s requestFloor best e =
      if Qualifies s requestFloor e ∧ accBenefit best < benefitOf s requestFloor e then
        some (benefitOf s requestFloor e, e.id, e.passengerCount)
      else best := by
  cases best with
  | none =>
    simp only [candidateStep, Qualifies, accBenefit, benefitOf, Bool.and_eq_true]
    split_ifs <;> simp_all <;> tauto
  | some p =>
    obtain ⟨b1, b2, b3⟩ := p
    simp only [candidateStep, Qualifies, accBenefit, benefitOf, Bool.and_eq_true]
    split_ifs <;> simp_all <;> tauto

theorem fwecGo_spec (s : PlannerState) (requestFloor : Nat) :
    ∀ (l : List Elev) (b0 : Option (Int × Nat × Nat)),
      (l.foldl (candidateStep s requestFloor) b0 = b0 ∨
        ∃ e ∈ l, Qualifies s requestFloor e ∧
          l.foldl (candidateStep s requestFloor) b0 =
            some (benefitOf s requestFloor e, e.id, e.passengerCount)) ∧
      accBenefit b0 ≤ accBenefit (l.foldl (candidateStep s requestFloor) b0) ∧
      (∀ e ∈ l, Qualifies s requestFloor e →
        benefitOf s requestFloor e ≤ accBenefit (l.foldl (candidateStep s requestFloor) b0)) := by
  intro l
  induction l with
  | nil =>
    intro b0
    refine ⟨Or.inl rfl, le_rfl, ?_⟩
    intro e he
    cases he
  | cons x xs ih =>
    intro b0
    have hstep := candidateStep_eq s requestFloor b0 x
    by_cases hx : Qualifies s requestFloor x ∧ accBenefit b0 < benefitOf s requestFloor x
    · rw [if_pos hx] at hstep
      obtain ⟨ih1, ih2, ih3⟩ := ih (candidateStep s requestFloor b0 x)
      have hacc : accBenefit (candidateStep s requestFloor b0 x) = benefitOf s requestFloor x := by
        rw [hstep]; rfl
      refine ⟨?_, ?_, ?_⟩
      · rcases ih1 with h | ⟨e, he, hq, hr⟩
        · right
          refine ⟨x, List.mem_cons_self x xs, hx.1, ?_⟩
          simp only [List.foldl_cons]
          rw [h, hstep]
        · right
          exact ⟨e, List.mem_cons_of_mem x he, hq, by simpa only [List.foldl_cons] using hr⟩
      · calc accBenefit b0 ≤ benefitOf s requestFloor x := le_of_lt hx.2
        _ = accBenefit (candidateStep s requestFloor b0 x) := hacc.symm
        _ ≤ accBenefit ((x :: xs).foldl (candidateStep s requestFloor) b0) := by
            simpa only [List.foldl_cons] using ih2
      · intro e he hq
        rcases List.mem_cons.mp he with h | h
        · subst h
          calc benefitOf s requestFloor e = accBenefit (candidateStep s requestFloor b0 e) := hacc.symm
          _ ≤ accBenefit ((e :: xs).foldl (candidateStep s requestFloor) b0) := by
              simpa only [List.foldl_cons] using ih2
        · simpa only [List.foldl_cons] using ih3 e h hq
    · rw [if_neg hx] at hstep
      obtain ⟨ih1, ih2, ih3⟩ := ih (candidateStep s requestFloor b0 x)
      rw [hstep] at ih1 ih2 ih3
      refine ⟨?_, ?_, ?_⟩
      · rcases ih1 with h | ⟨e, he, hq, hr⟩
        · left
          simp only [List.foldl_cons]
          rw [hstep, h]
        · right
          refine ⟨e, List.mem_cons_of_mem x he, hq, ?_⟩
          simp only [List.foldl_cons]
          rw [hstep, hr]
      · simp only [List.foldl_cons]
        rw [hstep]
        exact ih2
      · intro e he hq
        rcases List.mem_cons.mp he with h | h
        · subst h
          have hb : benefitOf s requestFloor e ≤ accBenefit b0 := by
            by_contra hc
            exact hx ⟨hq, lt_of_not_le hc⟩
          calc benefitOf s requestFloor e ≤ accBenefit b0 := hb
          _ ≤ accBenefit (xs.foldl (candidateStep s requestFloor) b0) := ih2
          _ = accBenefit ((e :: xs).foldl (candidateStep s requestFloor) b0) := by
              simp only [List.foldl_cons]
              rw [hstep]
        · simp only [List.foldl_cons]
          rw [hstep]
          exact ih3 e h hq

/-- No working candidate is returned exactly when no elevator qualifies. -/
theorem fwec_none_iff (s : PlannerState) (fleet : List Elev) (requestFloor : Nat) (direction : Dir) :
    findWorkingElevatorCandidate s fleet requestFloor direction = Option.none ↔
      ∀ e ∈ fleet, ¬ Qualifies s requestFloor e := by
  obtain ⟨h1, h2, h3⟩ := fwecGo_spec s requestFloor fleet Option.none
  constructor
  · intro hr e he hq
    have := h3 e he hq
    rw [findWorkingElevatorCandidate] at hr
    rw [hr] at this
    have hpos := hq.2.2.2.2
    simp only [accBenefit] at this
    omega
  · intro hall
    rcases h1 with h | ⟨e, he, hq, _⟩
    · exact h
    · exact absurd hq (hall e he)

/-- The returned working candidate is a qualifying elevator of the fleet
whose benefit is maximal among all qualifying elevators. -/
theorem fwec_some_spec (s : PlannerState) (fleet : List Elev) (requestFloor : Nat)
    (direction : Dir) (b : Int) (i pc : Nat)
    (hr : findWorkingElevatorCandidate s fleet requestFloor direction = some (b, i, pc)) :
    ∃ e ∈ fleet, e.id = i ∧ e.passengerCount = pc ∧ Qualifies s requestFloor e ∧
      benefitOf s requestFloor e = b ∧ 0 < b ∧
      ∀ e2 ∈ fleet, Qualifies s requestFloor e2 → benefitOf s requestFloor e2 ≤ b := by
  obtain ⟨h1, h2, h3⟩ := fwecGo_spec s requestFloor fleet Option.none
  rw [findWorkingElevatorCandidate] at hr
  rcases h1 with h | ⟨e, he, hq, hre⟩
  · rw [hr] at h
    cases h
  · rw [hr] at hre
    obtain ⟨hb, hi, hpc⟩ : benefitOf s requestFloor e = b ∧ e.id = i ∧ e.passengerCount = pc := by
      have h := hre
      simp only [Option.some_inj, Prod.mk.injEq] at h
      exact ⟨h.1.symm, h.2.1.symm, h.2.2.symm⟩
    refine ⟨e, he, hi, hpc, hq, hb, ?_, ?_⟩
    · rw [← hb]
      exact hq.2.2.2.2
    · intro e2 he2 hq2
      have := h3 e2 he2 hq2
      rw [hr] at this
      simpa only [accBenefit] using this

theorem closestFold_spec (requestFloor : Nat) :
    ∀ (l : List Elev) (b0 : Option Elev),
      (l.foldl (closestStep requestFloor) b0 = Option.none ↔ (b0 = Option.none ∧ l = [])) ∧
      (∀ x, l.foldl (closestStep requestFloor) b0 = some x → b0 = some x ∨ x ∈ l) ∧
      (∀ x, l.foldl (closestStep requestFloor) b0 = some x →
        ∀ e ∈ l, Nat.dist x.currentFloor requestFloor ≤ Nat.dist e.currentFloor requestFloor) ∧
      (∀ x y, l.foldl (closestStep requestFloor) b0 = some x → b0 = some y →
        Nat.dist x.currentFloor requestFloor ≤ Nat.dist y.currentFloor requestFloor) := by
  intro l
  induction l with
  | nil =>
    intro b0
    refine ⟨by simp, ?_, ?_, ?_⟩
    · intro x hx; exact Or.inl hx
    · intro x hx e he; cases he
    · intro x y hx hy
      simp only [List.foldl_nil] at hx
      rw [hx, Option.some_inj] at hy
      rw [hy]
  | cons a l ih =>
    intro b0
    obtain ⟨ih1, ih2, ih3, ih4⟩ := ih (closestStep requestFloor b0 a)
    have hstep_ne : closestStep requestFloor b0 a ≠ Option.none := by
      cases b0 with
      | none => simp [closestStep]
      | some b =>
        simp only [closestStep]
        split_ifs <;> simp
    have hstep_cases : ∀ x, closestStep requestFloor b0 a = some x →
        (x = a ∨ b0 = some x) ∧
          Nat.dist x.currentFloor requestFloor ≤ Nat.dist a.currentFloor requestFloor ∧
          (∀ y, b0 = some y →
            Nat.dist x.currentFloor requestFloor ≤ Nat.dist y.currentFloor requestFloor) := by
      intro x hx
      cases b0 with
      | none =>
        simp only [closestStep, Option.some_inj] at hx
        subst hx
        exact ⟨Or.inl rfl, le_rfl, by intro y hy; cases hy⟩
      | some b =>
        simp only [closestStep] at hx
        by_cases hd : Nat.dist a.currentFloor requestFloor < Nat.dist b.currentFloor requestFloor
        · rw [if_pos hd, Option.some_inj] at hx
          subst hx
          refine ⟨Or.inl rfl, le_rfl, ?_⟩
          intro y hy
          rw [Option.some_inj] at hy
          subst hy
          exact le_of_lt hd
        · rw [if_neg hd, Option.some_inj] at hx
          subst hx
          refine ⟨Or.inr rfl, le_of_not_lt hd, ?_⟩
          intro y hy
          rw [Option.some_inj] at hy
          subst hy
          exact le_rfl
    refine ⟨?_, ?_, ?_, ?_⟩
    · simp only [List.foldl_cons]
      constructor
      · intro h
        exact absurd (ih1.mp h).1 hstep_ne
      · intro ⟨h1, h2⟩
        cases h2
    · intro x hx
      simp only [List.foldl_cons] at hx
      rcases ih2 x hx with h | h
      · rcases (hstep_cases x h).1 with h1 | h1
        · right; rw [h1]; exact List.mem_cons_self a l
        · left; exact h1
      · right; exact List.mem_cons_of_mem a h
    · intro x hx e he
      simp only [List.foldl_cons] at hx
      rcases List.mem_cons.mp he with h | h
      · subst h
        rcases ih2 x hx with hcase | hcase
        · exact (hstep_cases x hcase).2.1
        · rcases Option.eq_none_or_eq_some (closestStep requestFloor b0 e) with hn | ⟨z, hz⟩
          · exact absurd hn hstep_ne
          · calc Nat.dist x.currentFloor requestFloor
                ≤ Nat.dist z.currentFloor requestFloor := ih4 x z hx hz
            _ ≤ Nat.dist e.currentFloor requestFloor := (hstep_cases z hz).2.1
      · exact ih3 x hx e h
    · intro x y hx hy
      simp only [List.foldl_cons] at hx
      rcases Option.eq_none_or_eq_some (closestStep requestFloor b0 a) with hn | ⟨z, hz⟩
      · exact absurd hn hstep_ne
      · calc Nat.dist x.currentFloor requestFloor
            ≤ Nat.dist z.currentFloor requestFloor := ih4 x z hx hz
        _ ≤ Nat.dist y.currentFloor requestFloor := (hstep_cases z hz).2.2 y hy

/-- No resting elevator exists exactly when the wake-up search fails. -/
theorem pickClosestResting_none_iff (s : PlannerState) (fleet : List Elev) (requestFloor : Nat) :
    pickClosestResting s fleet requestFloor = Option.none ↔
      ∀ e ∈ fleet, s.states e.id ≠ LifecycleState.resting := by
  obtain ⟨h1, _, _, _⟩ :=
    closestFold_spec requestFloor
      (fleet.filter (fun e => decide (s.states e.id = LifecycleState.resting))) Option.none
  unfold pickClosestResting
  rw [h1]
  simp only [true_and, List.filter_eq_nil_iff, decide_eq_true_eq]

/-- The woken elevator is a resting member of the fleet at minimal distance
from the call floor. -/
theorem pickClosestResting_some_spec (s : PlannerState) (fleet : List Elev) (requestFloor : Nat)
    (e : Elev) (hr : pickClosestResting s fleet requestFloor = some e) :
    e ∈ fleet ∧ s.states e.id = LifecycleState.resting ∧
      ∀ e2 ∈ fleet, s.states e2.id = LifecycleState.resting →
        Nat.dist e.currentFloor requestFloor ≤ Nat.dist e2.currentFloor requestFloor := by
  obtain ⟨_, h2, h3, _⟩ :=
    closestFold_spec requestFloor
      (fleet.filter (fun e => decide (s.states e.id = LifecycleState.resting))) Option.none
  unfold pickClosestResting at hr
  rcases h2 e hr with h | h
  · cases h
  · rw [List.mem_filter, decide_eq_true_eq] at h
    refine ⟨h.1, h.2, ?_⟩
    intro e2 he2 hrest
    exact h3 e hr e2 (List.mem_filter.mpr ⟨he2, by simpa using hrest⟩)

theorem notLexBetter_iff (c x : ℚ × Nat) :
    ¬ lexBetter c x ↔ c.1 ≤ x.1 ∧ (c.1 = x.1 → c.2 ≤ x.2) := by
  constructor
  · intro h
    constructor
    · by_contra hc
      exact h (Or.inl (lt_of_not_le hc))
    · intro he
      by_contra hc
      exact h (Or.inr ⟨he, lt_of_not_le hc⟩)
  · rintro ⟨h1, h2⟩ hlex
    rcases hlex with h | ⟨ha, hb⟩
    · exact absurd h (not_lt.mpr h1)
    · exact absurd hb (not_lt.mpr (h2 ha))

theorem notLexBetter_self (x : ℚ × Nat) : ¬ lexBetter x x := by
  rw [notLexBetter_iff]
  exact ⟨le_rfl, fun _ => le_rfl⟩

theorem lexBetter_asymm {a b : ℚ × Nat} (h : lexBetter a b) : ¬ lexBetter b a := by
  rw [notLexBetter_iff]
  rcases h with h | ⟨h1, h2⟩
  · exact ⟨le_of_lt h, fun he => absurd he (ne_of_lt h)⟩
  · exact ⟨le_of_eq h1.symm, fun _ => le_of_lt h2⟩

theorem notLexBetter_trans {c z x : ℚ × Nat}
    (h1 : ¬ lexBetter c z) (h2 : ¬ lexBetter z x) : ¬ lexBetter c x := by
  rw [notLexBetter_iff] at h1 h2 ⊢
  obtain ⟨h1a, h1b⟩ := h1
  obtain ⟨h2a, h2b⟩ := h2
  refine ⟨le_trans h1a h2a, ?_⟩
  intro he
  have hcz : c.1 = z.1 := le_antisymm h1a (by rw [← he] at h2a; exact h2a)
  have hzx : z.1 = x.1 := by rw [← hcz]; exact he
  exact le_trans (h1b hcz) (h2b hzx)

theorem dispatchFold_spec :
    ∀ (l : List (ℚ × Nat)) (b0 : Option (ℚ × Nat)),
      (l.foldl dispatchStep b0 = Option.none ↔ (b0 = Option.none ∧ l = [])) ∧
      (∀ x, l.foldl dispatchStep b0 = some x → b0 = some x ∨ x ∈ l) ∧
      (∀ x, l.foldl dispatchStep b0 = some x → ∀ c ∈ l, ¬ lexBetter c x) ∧
      (∀ x y, l.foldl dispatchStep b0 = some x → b0 = some y → ¬ lexBetter y x) := by
  intro l
  induction l with
  | nil =>
    intro b0
    refine ⟨by simp, ?_, ?_, ?_⟩
    · intro x hx; exact Or.inl hx
    · intro x hx c hc; cases hc
    · intro x y hx hy
      simp only [List.foldl_nil] at hx
      rw [hx, Option.some_inj] at hy
      rw [hy]
      exact notLexBetter_self _
  | cons a l ih =>
    intro b0
    obtain ⟨ih1, ih2, ih3, ih4⟩ := ih (dispatchStep b0 a)
    have hstep_ne : dispatchStep b0 a ≠ Option.none := by
      cases b0 with
      | none => simp [dispatchStep]
      | some b =>
        simp only [dispatchStep]
        split_ifs <;> simp
    have hstep_cases : ∀ x, dispatchStep b0 a = some x →
        (x = a ∨ b0 = some x) ∧ ¬ lexBetter a x ∧
          (∀ y, b0 = some y → ¬ lexBetter y x) := by
      intro x hx
      cases b0 with
      | none =>
        simp only [dispatchStep, Option.some_inj] at hx
        subst hx
        exact ⟨Or.inl rfl, notLexBetter_self _, by intro y hy; cases hy⟩
      | some b =>
        simp only [dispatchStep] at hx
        by_cases hd : lexBetter a b
        · rw [if_pos hd, Option.some_inj] at hx
          subst hx
          refine ⟨Or.inl rfl, notLexBetter_self _, ?_⟩
          intro y hy
          rw [Option.some_inj] at hy
          subst hy
          exact lexBetter_asymm hd
        · rw [if_neg hd, Option.some_inj] at hx
          subst hx
          refine ⟨Or.inr rfl, hd, ?_⟩
          intro y hy
          rw [Option.some_inj] at hy
          subst hy
          exact notLexBetter_self _
    refine ⟨?_, ?_, ?_, ?_⟩
    · simp only [List.foldl_cons]
      constructor
      · intro h
        exact absurd (ih1.mp h).1 hstep_ne
      · intro ⟨h1, h2⟩
        cases h2
    · intro x hx
      simp only [List.foldl_cons] at hx
      rcases ih2 x hx with h | h
      · rcases (hstep_cases x h).1 with h1 | h1
        · right; rw [h1]; exact List.mem_cons_self a l
        · left; exact h1
      · right; exact List.mem_cons_of_mem a h
    · intro x hx c hc
      simp only [List.foldl_cons] at hx
      rcases List.mem_cons.mp hc with h | h
      · subst h
        rcases ih2 x hx with hcase | hcase
        · exact (hstep_cases x hcase).2.1
        · rcases Option.eq_none_or_eq_some (dispatchStep b0 c) with hn | ⟨z, hz⟩
          · exact absurd hn hstep_ne
          · exact notLexBetter_trans ((hstep_cases z hz).2.1) (ih4 x z hx hz)
      · exact ih3 x hx c h
    · intro x y hx hy
      simp only [List.foldl_cons] at hx
      rcases Option.eq_none_or_eq_some (dispatchStep b0 a) with hn | ⟨z, hz⟩
      · exact absurd hn hstep_ne
      · exact notLexBetter_trans ((hstep_cases z hz).2.2 y hy) (ih4 x z hx hz)

theorem dispatch_candidates_mem (st : AlgoState) (fleet : List AlgoElev) (targetFloor : Nat)
    (direction : Dir) (x : ℚ × Nat) :
    (x ∈ fleet.filterMap (fun u =>
        let score := calculateScore st u targetFloor direction
        if 0 < score then some (score, u.id) else Option.none)) ↔
      ∃ u ∈ fleet, 0 < calculateScore st u targetFloor direction ∧
        x = (calculateScore st u targetFloor direction, u.id) := by
  rw [List.mem_filterMap]
  constructor
  · rintro ⟨u, hu, hfu⟩
    dsimp only at hfu
    by_cases hc : 0 < calculateScore st u targetFloor direction
    · rw [if_pos hc, Option.some_inj] at hfu
      exact ⟨u, hu, hc, hfu.symm⟩
    · rw [if_neg hc] at hfu
      cases hfu
  · rintro ⟨u, hu, hc, hx⟩
    refine ⟨u, hu, ?_⟩
    dsimp only
    rw [if_pos hc, hx]

/-- _intelligent_dispatch returns None exactly when every elevator scores
non-positively. -/
theorem intelligentDispatch_none_iff (st : AlgoState) (fleet : List AlgoElev)
    (targetFloor : Nat) (direction : Dir) :
    intelligentDispatch st fleet targetFloor direction = Option.none ↔
      ∀ u ∈ fleet, calculateScore st u targetFloor direction ≤ 0 := by
  unfold intelligentDispatch
  obtain ⟨d1, _, _, _⟩ := dispatchFold_spec
    (fleet.filterMap (fun u =>
      let score := calculateScore st u targetFloor direction
      if 0 < score then some (score, u.id) else Option.none)) Option.none
  rw [d1]
  simp only [true_and]
  constructor
  · intro h u hu
    by_contra hc
    have : (calculateScore st u targetFloor direction, u.id) ∈
        fleet.filterMap (fun u =>
          let score := calculateScore st u targetFloor direction
          if 0 < score then some (score, u.id) else Option.none) :=
      (dispatch_candidates_mem st fleet targetFloor direction _).mpr
        ⟨u, hu, lt_of_not_le hc, rfl⟩
    rw [h] at this
    cases this
  · intro h
    rw [List.eq_nil_iff_forall_not_mem]
    intro x hx
    obtain ⟨u, hu, hc, _⟩ := (dispatch_candidates_mem st fleet targetFloor direction x).mp hx
    exact absurd hc (not_lt.mpr (h u hu))

/-- The dispatched elevator scores positively and (score, id) is the
lexicographic maximum over all positively scoring elevators. -/
theorem intelligentDispatch_some_spec (st : AlgoState) (fleet : List AlgoElev)
    (targetFloor : Nat) (direction : Dir) (sc : ℚ) (i : Nat)
    (hr : intelligentDispatch st fleet targetFloor direction = some (sc, i)) :
    (∃ u ∈ fleet, u.id = i ∧ calculateScore st u targetFloor direction = sc) ∧ 0 < sc ∧
      ∀ v ∈ fleet, 0 < calculateScore st v targetFloor direction →
        ¬ lexBetter (calculateScore st v targetFloor direction, v.id) (sc, i) := by
  unfold intelligentDispatch at hr
  obtain ⟨d1, d2, d3, d4⟩ := dispatchFold_spec
    (fleet.filterMap (fun u =>
      let score := calculateScore st u targetFloor direction
      if 0 < score then some (score, u.id) else Option.none)) Option.none
  rcases d2 (sc, i) hr with h | h
  · cases h
  · obtain ⟨u, hu, hcu, hx⟩ := (dispatch_candidates_mem st fleet targetFloor direction _).mp h
    have hsc : calculateScore st u targetFloor direction = sc := by
      have := congrArg Prod.fst hx
      exact this.symm
    have hid : u.id = i := by
      have := congrArg Prod.snd hx
      exact this.symm
    refine ⟨⟨u, hu, hid, hsc⟩, by rw [← hsc]; exact hcu, ?_⟩
    intro v hv hcv
    exact d3 (sc, i) hr (calculateScore st v targetFloor direction, v.id)
      ((dispatch_candidates_mem st fleet targetFloor direction _).mpr ⟨v, hv, hcv, rfl⟩)

theorem calculateRestingFloor_closed (m i t : Nat) (ht : 2 ≤ t) :
    calculateRestingFloor m i t = min (((2 * i + 1) * (m + 1)) / (2 * t)) m := by
  have ht1 : t ≠ 1 := by omega
  have ht0 : (t : ℚ) ≠ 0 := Nat.cast_ne_zero.mpr (by omega)
  unfold calculateRestingFloor
  rw [if_neg ht1]
  show min (Int.toNat ⌊(i : ℚ) * (((m : ℚ) + 1) / (t : ℚ)) + (((m : ℚ) + 1) / (t : ℚ)) / 2⌋) m
      = min (((2 * i + 1) * (m + 1)) / (2 * t)) m
  have hq : (i : ℚ) * (((m : ℚ) + 1) / (t : ℚ)) + (((m : ℚ) + 1) / (t : ℚ)) / 2
      = (((2 * i + 1) * (m + 1) : ℕ) : ℚ) / (((2 * t : ℕ) : ℚ)) := by
    push_cast
    field_simp
    ring
  rw [hq, Int.floor_toNat, Nat.floor_div_eq_div]

/-! ## Claim theorems -/

/-- C6: for every fleet size total ≥ 1 and every index < total, the home
floor computed by both implementations equals the specification formula
min(floor(index*segment + segment/2), maxFloor) with segment =
(maxFloor+1)/total — equivalently the integer ((2*index+1)*(maxFloor+1)) /
(2*total) — for total ≥ 2, and equals maxFloor/2 (integer half) for
total = 1; in particular with maxFloor = 9 and two cars the home floors
are 2 and 7. -/
theorem C6_home_floor (m i t : Nat) (ht : 1 ≤ t) (hi : i < t) :
    calculateHomePosition m i t = homeFloorSpec m i t ∧
    calculateRestingFloor m i t = homeFloorSpec m i t ∧
    (t = 1 → calculateRestingFloor m i t = m / 2) ∧
    (2 ≤ t → calculateRestingFloor m i t = min (((2 * i + 1) * (m + 1)) / (2 * t)) m) ∧
    calculateRestingFloor 9 0 2 = 2 ∧ calculateRestingFloor 9 1 2 = 7 ∧
    calculateHomePosition 9 0 2 = 2 ∧ calculateHomePosition 9 1 2 = 7 := by
  have h0 : calculateRestingFloor 9 0 2 = 2 := by
    rw [calculateRestingFloor_closed 9 0 2 (by omega)]
    decide
  have h1 : calculateRestingFloor 9 1 2 = 7 := by
    rw [calculateRestingFloor_closed 9 1 2 (by omega)]
    decide
  refine ⟨rfl, rfl, ?_, ?_, h0, h1, h0, h1⟩
  · intro h
    subst h
    unfold calculateRestingFloor
    rw [if_pos rfl]
  · intro h
    exact calculateRestingFloor_closed m i t h

theorem C6_home_floor_witness :
    calculateRestingFloor 9 1 2 = homeFloorSpec 9 1 2 ∧ calculateRestingFloor 9 1 2 = 7 :=
  ⟨(C6_home_floor 9 1 2 (by omega) (by omega)).2.1,
    (C6_home_floor 9 1 2 (by omega) (by omega)).2.2.2.2.2.1⟩

/-- A controller state of algorithm_only.py in which every elevator is
recorded idle, with the whole building as service zone and capacity 10
(the value assigned in the constructor). -/
def algoIdleState : AlgoState where
  unitState := fun _ => UnitState.idle
  unitHeading := fun _ => Heading.none
  serviceQueue := fun _ => []
  passengerRegistry := fun _ => ∅
  elevatorGoals := fun _ => ∅
  userData := fun _ => Option.none
  tick := Option.none
  zoneAssignment := fun _ => (0, 9)
  unitCapacity := 10

/-- The same state with every elevator recorded as moving upward. -/
def algoMovingState : AlgoState :=
  { algoIdleState with
      unitState := fun _ => UnitState.moving,
      unitHeading := fun _ => Heading.up }

/-- C1 (amended): the scorer does not exclude full cars.  For an idle car
the score ignores the load entirely, and for a moving car the score of a
full car is exactly half the score the same car would get when empty (the
load factor halves it), hence still positive whenever the empty score is. -/
theorem C1_full_car_not_excluded (st : AlgoState) (u : AlgoElev) (targetFloor : Nat)
    (direction : Dir) :
    (st.unitState u.id = UnitState.idle →
      ∀ p q : Nat,
        calculateScore st { u with passengers := p } targetFloor direction =
          calculateScore st { u with passengers := q } targetFloor direction) ∧
    (st.unitState u.id = UnitState.moving → 0 < st.unitCapacity →
      calculateScore st { u with passengers := st.unitCapacity } targetFloor direction =
        (1 / 2) * calculateScore st { u with passengers := 0 } targetFloor direction) := by
  constructor
  · intro h p q
    simp only [calculateScore, h]
  · intro h hcap
    have hcap0 : (st.unitCapacity : ℚ) ≠ 0 := Nat.cast_ne_zero.mpr (by omega)
    have hfull : ((st.unitCapacity : ℚ)) / (st.unitCapacity : ℚ) = 1 := div_self hcap0
    simp only [calculateScore, h]
    by_cases h1 : headingEqDir (st.unitHeading u.id) direction = true
    · simp only [h1, if_true]
      by_cases h2 : (st.unitHeading u.id = Heading.up ∧ u.currentFloor < targetFloor)
          ∨ (st.unitHeading u.id = Heading.down ∧ targetFloor < u.currentFloor)
      · simp only [if_pos h2, hfull, Nat.cast_zero, zero_div]
        cases htf : u.targetFloor with
        | none =>
          norm_num
          ring
        | some tv =>
          by_cases h3 : tv ≠ 0
          · simp only [if_pos h3]
            norm_num
            ring
          · simp only [if_neg h3]
            norm_num
            ring
      · simp only [if_neg h2]
        ring
    · simp only [h1]
      norm_num

theorem C1_full_car_not_excluded_witness :
    calculateScore algoMovingState ⟨0, 2, 10, some 6⟩ 5 Dir.up =
      (1 / 2) * calculateScore algoMovingState ⟨0, 2, 0, some 6⟩ 5 Dir.up ∧
    calculateScore algoIdleState ⟨0, 4, 10, Option.none⟩ 5 Dir.up =
      calculateScore algoIdleState ⟨0, 4, 3, Option.none⟩ 5 Dir.up :=
  ⟨(C1_full_car_not_excluded algoMovingState ⟨0, 2, 7, some 6⟩ 5 Dir.up).2 rfl (by decide),
    (C1_full_car_not_excluded algoIdleState ⟨0, 4, 9, Option.none⟩ 5 Dir.up).1 rfl 10 3⟩

/-- C1 counterexample: a full idle car (10 passengers, capacity 10) right
at the call floor receives score 150 > 0 from _calculate_score — not a
score ≤ 0 — and _intelligent_dispatch selects it. -/
theorem C1_counterexample :
    (⟨0, 5, 10, Option.none⟩ : AlgoElev).passengers = algoIdleState.unitCapacity ∧
    calculateScore algoIdleState ⟨0, 5, 10, Option.none⟩ 5 Dir.up = 150 ∧
    intelligentDispatch algoIdleState [⟨0, 5, 10, Option.none⟩] 5 Dir.up = some (150, 0) := by
  refine ⟨rfl, ?_, ?_⟩
  · norm_num [calculateScore, algoIdleState]
  · norm_num [intelligentDispatch, calculateScore, algoIdleState, List.filterMap, dispatchStep]

/-- C4 (amended): when _intelligent_dispatch of algorithm_only.py assigns
a call, the selected elevator has a positive score and the highest score;
when several candidates have exactly equal highest scores the elevator
with the HIGHEST id wins (reverse-sorting the (score, id) tuples puts the
largest id first among equal scores), not the lowest. -/
theorem C4_highest_score_highest_id (st : AlgoState) (fleet : List AlgoElev)
    (targetFloor : Nat) (direction : Dir) (sc : ℚ) (i : Nat)
    (hr : intelligentDispatch st fleet targetFloor direction = some (sc, i)) :
    (∃ u ∈ fleet, u.id = i ∧ calculateScore st u targetFloor direction = sc) ∧ 0 < sc ∧
      ∀ v ∈ fleet, 0 < calculateScore st v targetFloor direction →
        (calculateScore st v targetFloor direction < sc ∨
          (calculateScore st v targetFloor direction = sc ∧ v.id ≤ i)) := by
  obtain ⟨hex, hpos, hmax⟩ :=
    intelligentDispatch_some_spec st fleet targetFloor direction sc i hr
  refine ⟨hex, hpos, ?_⟩
  intro v hv hcv
  have h := hmax v hv hcv
  rw [notLexBetter_iff] at h
  obtain ⟨hle, hid⟩ := h
  rcases lt_or_eq_of_le hle with hlt | heq
  · exact Or.inl hlt
  · exact Or.inr ⟨heq, hid heq⟩

theorem C4_highest_score_highest_id_witness :
    (∃ u ∈ [(⟨0, 3, 0, Option.none⟩ : AlgoElev)], u.id = 0 ∧
      calculateScore algoIdleState u 5 Dir.up = 146) ∧ (0 : ℚ) < 146 :=
  ⟨(C4_highest_score_highest_id algoIdleState [⟨0, 3, 0, Option.none⟩] 5 Dir.up 146 0
      (by norm_num [intelligentDispatch, calculateScore, algoIdleState, List.filterMap,
        dispatchStep])).1,
    (C4_highest_score_highest_id algoIdleState [⟨0, 3, 0, Option.none⟩] 5 Dir.up 146 0
      (by norm_num [intelligentDispatch, calculateScore, algoIdleState, List.filterMap,
        dispatchStep])).2.1⟩

/-- C4 counterexample: two idle cars with exactly equal scores (148 each,
one floor away on either side of the call); _intelligent_dispatch assigns
car 1, the HIGHEST id, not the lowest id 0 as the claim states. -/
theorem C4_counterexample :
    calculateScore algoIdleState ⟨0, 4, 0, Option.none⟩ 5 Dir.up =
      calculateScore algoIdleState ⟨1, 6, 0, Option.none⟩ 5 Dir.up ∧
    intelligentDispatch algoIdleState
      [⟨0, 4, 0, Option.none⟩, ⟨1, 6, 0, Option.none⟩] 5 Dir.up = some (148, 1) := by
  constructor
  · norm_num [calculateScore, algoIdleState]
  · norm_num [intelligentDispatch, calculateScore, algoIdleState, List.filterMap,
      dispatchStep, lexBetter]

/-- C10: for a car replanned while travelling in direction d, the candidate
stop pool computed by _get_floors_in_direction consists of exactly the
onboard passenger destinations strictly ahead of the current floor
together with every floor strictly ahead that holds a pending hall call in
EITHER direction (the union of the up-requests and the down-requests) —
the hall call's direction is not required to match the travel direction. -/
theorem C10_replanning_pool (s : PlannerState) (eid cur f : Nat) (d : Dir) :
    f ∈ getFloorsInDirection s eid cur d ↔
      (aheadOf d f cur = true ∧
        (f ∈ (s.passengerDests eid).image Prod.snd ∨
          f ∈ s.upRequests ∨ f ∈ s.downRequests)) := by
  unfold getFloorsInDirection
  simp only [Finset.mem_union, Finset.mem_image, Finset.mem_filter]
  constructor
  · rintro (⟨p, ⟨hp, hahead⟩, hpf⟩ | ⟨hmem, hahead⟩)
    · subst hpf
      exact ⟨hahead, Or.inl ⟨p, hp, rfl⟩⟩
    · exact ⟨hahead, Or.inr hmem⟩
  · rintro ⟨hahead, (⟨p, hp, hpf⟩ | hmem)⟩
    · subst hpf
      exact Or.inl ⟨p, ⟨hp, hahead⟩, rfl⟩
    · exact Or.inr ⟨hmem, hahead⟩

theorem Qualifies_iff (s : PlannerState) (fl : Nat) (e : Elev) :
    Qualifies s fl e ↔
      s.states e.id = LifecycleState.scanning ∧ (s.targetFloors e.id).Nonempty ∧
      ((s.directions e.id = Dir.up ∧ e.currentFloor ≤ fl ∧
          fl < setMin (s.targetFloors e.id)) ∨
        (s.directions e.id = Dir.down ∧ setMax (s.targetFloors e.id) < fl ∧
          fl ≤ e.currentFloor)) := by
  unfold Qualifies benefitOf primaryTarget
  rw [← Finset.nonempty_iff_ne_empty]
  cases hd : s.directions e.id with
  | up =>
    simp only [isDirectionMatching, isOnTheWay, Bool.and_eq_true, decide_eq_true_eq]
    constructor
    · rintro ⟨h1, h2, h3, ⟨h4a, h4b⟩, h5⟩
      refine ⟨h1, h2, Or.inl ⟨trivial, h3, ?_⟩⟩
      have e1 : |(e.currentFloor : Int) - (setMin (s.targetFloors e.id) : Int)| =
          (setMin (s.targetFloors e.id) : Int) - (e.currentFloor : Int) := by
        rw [abs_sub_comm]
        exact abs_of_nonneg (sub_nonneg.mpr (Nat.cast_le.mpr (le_trans h4a h4b)))
      have e2 : |(e.currentFloor : Int) - (fl : Int)| = (fl : Int) - (e.currentFloor : Int) := by
        rw [abs_sub_comm]
        exact abs_of_nonneg (sub_nonneg.mpr (Nat.cast_le.mpr h3))
      rw [e1, e2] at h5
      omega
    · rintro ⟨h1, h2, (⟨_, h3, h4⟩ | ⟨hcontra, _, _⟩)⟩
      · refine ⟨h1, h2, h3, ⟨h3, le_of_lt h4⟩, ?_⟩
        have e1 : |(e.currentFloor : Int) - (setMin (s.targetFloors e.id) : Int)| =
            (setMin (s.targetFloors e.id) : Int) - (e.currentFloor : Int) := by
          rw [abs_sub_comm]
          exact abs_of_nonneg (sub_nonneg.mpr (Nat.cast_le.mpr (le_trans h3 (le_of_lt h4))))
        have e2 : |(e.currentFloor : Int) - (fl : Int)| = (fl : Int) - (e.currentFloor : Int) := by
          rw [abs_sub_comm]
          exact abs_of_nonneg (sub_nonneg.mpr (Nat.cast_le.mpr h3))
        rw [e1, e2]
        omega
      · cases hcontra
  | down =>
    simp only [isDirectionMatching, isOnTheWay, Bool.and_eq_true, decide_eq_true_eq]
    constructor
    · rintro ⟨h1, h2, h3, ⟨h4a, h4b⟩, h5⟩
      refine ⟨h1, h2, Or.inr ⟨trivial, ?_, h3⟩⟩
      have e1 : |(e.currentFloor : Int) - (setMax (s.targetFloors e.id) : Int)| =
          (e.currentFloor : Int) - (setMax (s.targetFloors e.id) : Int) :=
        abs_of_nonneg (sub_nonneg.mpr (Nat.cast_le.mpr (le_trans h4b h4a)))
      have e2 : |(e.currentFloor : Int) - (fl : Int)| = (e.currentFloor : Int) - (fl : Int) :=
        abs_of_nonneg (sub_nonneg.mpr (Nat.cast_le.mpr h3))
      rw [e1, e2] at h5
      omega
    · rintro ⟨h1, h2, (⟨hcontra, _, _⟩ | ⟨_, h3, h4⟩)⟩
      · cases hcontra
      · refine ⟨h1, h2, h4, ⟨h4, le_of_lt h3⟩, ?_⟩
        have e1 : |(e.currentFloor : Int) - (setMax (s.targetFloors e.id) : Int)| =
            (e.currentFloor : Int) - (setMax (s.targetFloors e.id) : Int) :=
          abs_of_nonneg (sub_nonneg.mpr (Nat.cast_le.mpr (le_trans (le_of_lt h3) h4)))
        have e2 : |(e.currentFloor : Int) - (fl : Int)| = (e.currentFloor : Int) - (fl : Int) :=
          abs_of_nonneg (sub_nonneg.mpr (Nat.cast_le.mpr h4))
        rw [e1, e2]
        omega

/-- C3 (amended): a scanning car is a working-elevator candidate for a call
at requestFloor exactly by the geometric test: the floor lies weakly ahead
of the car's current floor and strictly before the car's current primary
target in its travel direction (equivalently, positive benefit).  The
CALL's direction is ignored entirely — _find_working_elevator_candidate
never reads its direction argument, so a direction match between call and
car is NOT required; what does hold is that a scanning car never qualifies
for a call strictly behind it (no backtracking). -/
theorem C3_scanning_candidacy (s : PlannerState) (fleet : List Elev) (requestFloor : Nat)
    (dirA dirB : Dir) (b : Int) (i pc : Nat) :
    (findWorkingElevatorCandidate s fleet requestFloor dirA =
      findWorkingElevatorCandidate s fleet requestFloor dirB) ∧
    (findWorkingElevatorCandidate s fleet requestFloor dirA = some (b, i, pc) →
      ∃ e ∈ fleet, e.id = i ∧ s.states e.id = LifecycleState.scanning ∧
        (s.targetFloors e.id).Nonempty ∧
        ((s.directions e.id = Dir.up ∧ e.currentFloor ≤ requestFloor ∧
            requestFloor < setMin (s.targetFloors e.id)) ∨
          (s.directions e.id = Dir.down ∧ setMax (s.targetFloors e.id) < requestFloor ∧
            requestFloor ≤ e.currentFloor))) ∧
    (∀ e ∈ fleet,
      ((s.directions e.id = Dir.up ∧ requestFloor < e.currentFloor) ∨
        (s.directions e.id = Dir.down ∧ e.currentFloor < requestFloor)) →
      ¬ Qualifies s requestFloor e) := by
  refine ⟨rfl, ?_, ?_⟩
  · intro hr
    obtain ⟨e, he, hid, _, hq, _, _, _⟩ := fwec_some_spec s fleet requestFloor dirA b i pc hr
    rw [Qualifies_iff] at hq
    exact ⟨e, he, hid, hq.1, hq.2.1, hq.2.2⟩
  · intro e he hbehind hq
    rw [Qualifies_iff] at hq
    rcases hq.2.2 with ⟨hu, h1, _⟩ | ⟨hd, _, h2⟩
    · rcases hbehind with ⟨_, hlt⟩ | ⟨hcontra, _⟩
      · omega
      · rw [hu] at hcontra
        cases hcontra
    · rcases hbehind with ⟨hcontra, _⟩ | ⟨_, hlt⟩
      · rw [hd] at hcontra
        cases hcontra
      · omega

/-- A planner state with a single scanning car heading up with target
floor 6, everything else empty. -/
def plannerScanState : PlannerState where
  directions := fun _ => Dir.up
  targetFloors := fun i => if i = 0 then {6} else ∅
  passengerDests := fun _ => ∅
  upRequests := ∅
  downRequests := ∅
  restingFloors := fun _ => 0
  states := fun _ => LifecycleState.scanning

theorem C3_scanning_candidacy_witness :
    ∃ e ∈ [(⟨0, 2, 0⟩ : Elev)], e.id = 0 ∧
      plannerScanState.states e.id = LifecycleState.scanning ∧
      (plannerScanState.targetFloors e.id).Nonempty ∧
      ((plannerScanState.directions e.id = Dir.up ∧ e.currentFloor ≤ 4 ∧
          4 < setMin (plannerScanState.targetFloors e.id)) ∨
        (plannerScanState.directions e.id = Dir.down ∧
          setMax (plannerScanState.targetFloors e.id) < 4 ∧
          4 ≤ e.currentFloor)) :=
  (C3_scanning_candidacy plannerScanState [⟨0, 2, 0⟩] 4 Dir.down Dir.up 2 0 0).2.1
    (by decide)

/-- C3 counterexample: the car travels UP but is selected (and assigned via
_smart_assign_elevator) for a DOWN call at floor 4 lying on its way to
floor 6 — candidacy does not require the car's travel direction to equal
the call direction. -/
theorem C3_counterexample :
    plannerScanState.directions 0 = Dir.up ∧
    findWorkingElevatorCandidate plannerScanState [⟨0, 2, 0⟩] 4 Dir.down = some (2, 0, 0) ∧
    (smartAssignElevator plannerScanState [⟨0, 2, 0⟩] 4 Dir.down).1.targetFloors 0 =
      ({4, 6} : Finset Nat) := by
  decide

/-- C2: on_passenger_call first registers the call (the pending-request set
of the call direction contains the floor in every outcome), then
(a) when a working candidate exists it assigns the call to the qualifying
scanning car of maximal benefit by adding the floor to that car's target
set, emitting no command; (b) when no working candidate exists but a
resting car does, it wakes the resting car at minimal distance: that car
becomes scanning, its direction is set toward the call (the call's own
direction when already level with it), the call floor joins its target
set, and one go_to_floor command is emitted; (c) when neither exists — no
scanning car qualifies and no car is resting — the call is left pending:
the state is exactly the registered state and no command is emitted. -/
theorem C2_call_cascade (s : PlannerState) (fleet : List Elev) (floorNum : Nat) (d : Dir)
    (s1 : PlannerState) (r : PlannerState × List Cmd)
    (hs1 : s1 = registerCall s floorNum d)
    (hr : r = onPassengerCall s fleet floorNum d) :
    (floorNum ∈ r.1.requests d) ∧
    (∀ b i pc, findWorkingElevatorCandidate s1 fleet floorNum d = some (b, i, pc) →
      r.1 = redirectElevator s1 i floorNum ∧ r.2 = [] ∧
      r.1.targetFloors i = insert floorNum (s1.targetFloors i) ∧
      (∃ e ∈ fleet, e.id = i ∧ Qualifies s1 floorNum e ∧ benefitOf s1 floorNum e = b ∧
        ∀ e2 ∈ fleet, Qualifies s1 floorNum e2 → benefitOf s1 floorNum e2 ≤ b)) ∧
    (findWorkingElevatorCandidate s1 fleet floorNum d = Option.none →
      ∀ e, pickClosestResting s1 fleet floorNum = some e →
        e ∈ fleet ∧ s1.states e.id = LifecycleState.resting ∧
        (∀ e2 ∈ fleet, s1.states e2.id = LifecycleState.resting →
          Nat.dist e.currentFloor floorNum ≤ Nat.dist e2.currentFloor floorNum) ∧
        r.1.states e.id = LifecycleState.scanning ∧
        r.1.targetFloors e.id = insert floorNum (s1.targetFloors e.id) ∧
        r.1.directions e.id =
          (if e.currentFloor < floorNum then Dir.up
            else if floorNum < e.currentFloor then Dir.down else d) ∧
        r.2 = [⟨e.id, floorNum⟩]) ∧
    (findWorkingElevatorCandidate s1 fleet floorNum d = Option.none →
      pickClosestResting s1 fleet floorNum = Option.none →
      (∀ e ∈ fleet, ¬ Qualifies s1 floorNum e) ∧
      (∀ e ∈ fleet, s1.states e.id ≠ LifecycleState.resting) ∧
      r.1 = s1 ∧ r.2 = []) := by
  subst hs1
  subst hr
  refine ⟨?_, ?_, ?_, ?_⟩
  · have hreq : ∀ dd, (onPassengerCall s fleet floorNum d).1.requests dd =
        (registerCall s floorNum d).requests dd := by
      intro dd
      unfold onPassengerCall smartAssignElevator
      cases hw : findWorkingElevatorCandidate (registerCall s floorNum d) fleet floorNum d with
      | some v =>
        obtain ⟨b0, i0, pc0⟩ := v
        cases dd <;> rfl
      | none =>
        cases hp : pickClosestResting (registerCall s floorNum d) fleet floorNum with
        | some e => cases dd <;> rfl
        | none => cases dd <;> rfl
    rw [hreq d]
    cases d with
    | up => exact Finset.mem_insert_self floorNum s.upRequests
    | down => exact Finset.mem_insert_self floorNum s.downRequests
  · intro b i pc hw
    have hred : onPassengerCall s fleet floorNum d =
        (redirectElevator (registerCall s floorNum d) i floorNum, []) := by
      unfold onPassengerCall smartAssignElevator
      rw [hw]
    obtain ⟨e, he, hid, hpc, hq, hb, hbpos, hmax⟩ :=
      fwec_some_spec (registerCall s floorNum d) fleet floorNum d b i pc hw
    refine ⟨by rw [hred], by rw [hred], ?_, e, he, hid, hq, hb, hmax⟩
    rw [hred]
    show (redirectElevator (registerCall s floorNum d) i floorNum).targetFloors i = _
    unfold redirectElevator
    simp [Function.update_same]
  · intro hw e hp
    have hwake : onPassengerCall s fleet floorNum d =
        wakeUpElevator (registerCall s floorNum d) e floorNum d := by
      unfold onPassengerCall smartAssignElevator
      rw [hw, hp]
    obtain ⟨he, hrest, hmin⟩ :=
      pickClosestResting_some_spec (registerCall s floorNum d) fleet floorNum e hp
    refine ⟨he, hrest, hmin, ?_, ?_, ?_, ?_⟩
    · rw [hwake]
      show Function.update (registerCall s floorNum d).states e.id LifecycleState.scanning e.id = _
      rw [Function.update_same]
    · rw [hwake]
      show Function.update (registerCall s floorNum d).targetFloors e.id
          (insert floorNum ((registerCall s floorNum d).targetFloors e.id)) e.id = _
      rw [Function.update_same]
    · rw [hwake]
      show Function.update (registerCall s floorNum d).directions e.id _ e.id = _
      rw [Function.update_same]
    · rw [hwake]
      rfl
  · intro hw hp
    have hpend : onPassengerCall s fleet floorNum d = (registerCall s floorNum d, []) := by
      unfold onPassengerCall smartAssignElevator
      rw [hw, hp]
    refine ⟨?_, ?_, by rw [hpend], by rw [hpend]⟩
    · exact (fwec_none_iff (registerCall s floorNum d) fleet floorNum d).mp hw
    · exact (pickClosestResting_none_iff (registerCall s floorNum d) fleet floorNum).mp hp

/-- A planner state with every car resting (the post-initialisation state
for two cars on floors 0..9: resting floors 2 and 7), no requests. -/
def plannerRestState : PlannerState where
  directions := fun _ => Dir.up
  targetFloors := fun _ => ∅
  passengerDests := fun _ => ∅
  upRequests := ∅
  downRequests := ∅
  restingFloors := fun i => if i = 0 then 2 else 7
  states := fun _ => LifecycleState.resting

theorem C2_call_cascade_witness :
    (onPassengerCall plannerRestState [⟨0, 2, 0⟩, ⟨1, 7, 0⟩] 5 Dir.up).1.states 1 =
      LifecycleState.scanning ∧
    (onPassengerCall plannerRestState [⟨0, 2, 0⟩, ⟨1, 7, 0⟩] 5 Dir.up).2 = [⟨1, 5⟩] := by
  have h := (C2_call_cascade plannerRestState [⟨0, 2, 0⟩, ⟨1, 7, 0⟩] 5 Dir.up
      (registerCall plannerRestState 5 Dir.up)
      (onPassengerCall plannerRestState [⟨0, 2, 0⟩, ⟨1, 7, 0⟩] 5 Dir.up) rfl rfl).2.2.1
      (by decide) ⟨1, 7, 0⟩ (by decide)
  exact ⟨h.2.2.2.1, h.2.2.2.2.2.2⟩

theorem scanSel_up (pool : Finset Nat) : scanSel Dir.up pool = setMin pool := rfl

theorem scanSel_down (pool : Finset Nat) : scanSel Dir.down pool = setMax pool := rfl

theorem scanSel_mem (d : Dir) (pool : Finset Nat) (h : pool.Nonempty) : scanSel d pool ∈ pool := by
  cases d with
  | up => exact setMin_mem pool h
  | down => exact setMax_mem pool h

theorem getFloors_ahead (s : PlannerState) (eid cur f : Nat) (d : Dir)
    (hf : f ∈ getFloorsInDirection s eid cur d) : aheadOf d f cur = true :=
  ((C10_replanning_pool s eid cur f d).mp hf).1

theorem scanSel_nearest (d : Dir) (s : PlannerState) (eid cur : Nat)
    (h : (getFloorsInDirection s eid cur d).Nonempty) :
    ∀ f ∈ getFloorsInDirection s eid cur d,
      Nat.dist (scanSel d (getFloorsInDirection s eid cur d)) cur ≤ Nat.dist f cur := by
  intro f hf
  have hmem := scanSel_mem d _ h
  have h1 := getFloors_ahead s eid cur f d hf
  have h2 := getFloors_ahead s eid cur _ d hmem
  cases d with
  | up =>
    rw [scanSel_up] at h2 ⊢
    have h3 := setMin_le _ f hf
    simp only [aheadOf, decide_eq_true_eq] at h1 h2
    simp only [Nat.dist]
    omega
  | down =>
    rw [scanSel_down] at h2 ⊢
    have h3 := le_setMax _ f hf
    simp only [aheadOf, decide_eq_true_eq] at h1 h2
    simp only [Nat.dist]
    omega

/-- Branch equation: some pool floor lies ahead in the current direction,
so _assign_next_floor keeps the direction, targets the SCAN selection and
commands the move. -/
theorem assignNextFloor_forward_eq (s : PlannerState) (e : Elev)
    (h : (getFloorsInDirection s e.id e.currentFloor (s.directions e.id)).Nonempty) :
    assignNextFloor s e =
      ({ s with targetFloors := (Function.update s.targetFloors e.id
          (insert (scanSel (s.directions e.id)
              (getFloorsInDirection s e.id e.currentFloor (s.directions e.id)))
            (s.targetFloors e.id))) },
        [⟨e.id, scanSel (s.directions e.id)
            (getFloorsInDirection s e.id e.currentFloor (s.directions e.id))⟩]) := by
  unfold assignNextFloor
  rw [if_pos (by simpa using Finset.nonempty_iff_ne_empty.mp h)]

/-- Branch equation: nothing ahead but something behind, so
_assign_next_floor flips the direction exactly once and selects in the new
direction. -/
theorem assignNextFloor_reverse_eq (s : PlannerState) (e : Elev)
    (hA : getFloorsInDirection s e.id e.currentFloor (s.directions e.id) = ∅)
    (hB : (getFloorsInDirection s e.id e.currentFloor (s.directions e.id).flip).Nonempty) :
    assignNextFloor s e =
      ({ s with
          directions := (Function.update s.directions e.id (s.directions e.id).flip),
          targetFloors := (Function.update s.targetFloors e.id
            (insert (scanSel (s.directions e.id).flip
                (getFloorsInDirection s e.id e.currentFloor (s.directions e.id).flip))
              (s.targetFloors e.id))) },
        [⟨e.id, scanSel (s.directions e.id).flip
            (getFloorsInDirection s e.id e.currentFloor (s.directions e.id).flip)⟩]) := by
  unfold assignNextFloor
  rw [if_neg (by simpa using hA)]
  rw [if_pos (by simpa using Finset.nonempty_iff_ne_empty.mp hB)]
  rfl

/-- Branch equation: no pool floor on either side, so _assign_next_floor
flips the direction and rests the car. -/
theorem assignNextFloor_rest_eq (s : PlannerState) (e : Elev)
    (hA : getFloorsInDirection s e.id e.currentFloor (s.directions e.id) = ∅)
    (hB : getFloorsInDirection s e.id e.currentFloor (s.directions e.id).flip = ∅) :
    assignNextFloor s e =
      (enterRestingState
        { s with directions := (Function.update s.directions e.id (s.directions e.id).flip) } e,
        []) := by
  unfold assignNextFloor
  rw [if_neg (by simpa using hA)]
  rw [if_neg (by simpa using hB)]

theorem executeNext_up_forward (st : AlgoState) (unit : AlgoElev)
    (hh : st.unitHeading unit.id = Heading.up)
    (f0 : Nat) (hf0 : f0 ∈ st.serviceQueue unit.id) (hlt : unit.currentFloor < f0) :
    (executeNext st unit).2 =
      some ⟨unit.id, listMin ((st.serviceQueue unit.id).filter
        (fun f => decide (unit.currentFloor < f)))⟩ ∧
    listMin ((st.serviceQueue unit.id).filter (fun f => decide (unit.currentFloor < f)))
      ∈ st.serviceQueue unit.id ∧
    unit.currentFloor <
      listMin ((st.serviceQueue unit.id).filter (fun f => decide (unit.currentFloor < f))) ∧
    (∀ f ∈ st.serviceQueue unit.id, unit.currentFloor < f →
      listMin ((st.serviceQueue unit.id).filter (fun f => decide (unit.currentFloor < f))) ≤ f) ∧
    (executeNext st unit).1.unitHeading unit.id = Heading.up := by
  have hqne : st.serviceQueue unit.id ≠ [] := List.ne_nil_of_mem hf0
  have hup : f0 ∈ (st.serviceQueue unit.id).filter (fun f => decide (unit.currentFloor < f)) :=
    List.mem_filter.mpr ⟨hf0, by simpa using hlt⟩
  have hupne : (st.serviceQueue unit.id).filter (fun f => decide (unit.currentFloor < f)) ≠ [] :=
    List.ne_nil_of_mem hup
  have hmin := listMin_mem _ hupne
  have hmin2 := List.mem_filter.mp hmin
  have heq : executeNext st unit =
      ({ st with unitHeading := Function.update st.unitHeading unit.id Heading.up },
        some ⟨unit.id, listMin ((st.serviceQueue unit.id).filter
          (fun f => decide (unit.currentFloor < f)))⟩) := by
    unfold executeNext
    rw [if_neg hqne, if_pos (Or.inl hh), if_pos hupne]
  refine ⟨by rw [heq], hmin2.1, by simpa using hmin2.2, ?_, ?_⟩
  · intro f hf hcf
    exact listMin_le _ f (List.mem_filter.mpr ⟨hf, by simpa using hcf⟩)
  · rw [heq]
    exact Function.update_same unit.id Heading.up st.unitHeading

theorem executeNext_up_reverse (st : AlgoState) (unit : AlgoElev)
    (hh : st.unitHeading unit.id = Heading.up)
    (hnone : ∀ f ∈ st.serviceQueue unit.id, ¬ unit.currentFloor < f)
    (f0 : Nat) (hf0 : f0 ∈ st.serviceQueue unit.id) (hlt : f0 < unit.currentFloor) :
    (executeNext st unit).2 =
      some ⟨unit.id, listMax ((st.serviceQueue unit.id).filter
        (fun f => decide (f < unit.currentFloor)))⟩ ∧
    listMax ((st.serviceQueue unit.id).filter (fun f => decide (f < unit.currentFloor)))
      ∈ st.serviceQueue unit.id ∧
    listMax ((st.serviceQueue unit.id).filter (fun f => decide (f < unit.currentFloor)))
      < unit.currentFloor ∧
    (∀ f ∈ st.serviceQueue unit.id, f < unit.currentFloor →
      f ≤ listMax ((st.serviceQueue unit.id).filter (fun f => decide (f < unit.currentFloor)))) ∧
    (executeNext st unit).1.unitHeading unit.id = Heading.down := by
  have hqne : st.serviceQueue unit.id ≠ [] := List.ne_nil_of_mem hf0
  have hupe : (st.serviceQueue unit.id).filter (fun f => decide (unit.currentFloor < f)) = [] := by
    rw [List.filter_eq_nil_iff]
    intro f hf
    simpa using hnone f hf
  have hlow : f0 ∈ (st.serviceQueue unit.id).filter (fun f => decide (f < unit.currentFloor)) :=
    List.mem_filter.mpr ⟨hf0, by simpa using hlt⟩
  have hlowne : (st.serviceQueue unit.id).filter (fun f => decide (f < unit.currentFloor)) ≠ [] :=
    List.ne_nil_of_mem hlow
  have hmax := listMax_mem _ hlowne
  have hmax2 := List.mem_filter.mp hmax
  have heq : executeNext st unit =
      ({ st with unitHeading := Function.update st.unitHeading unit.id Heading.down },
        some ⟨unit.id, listMax ((st.serviceQueue unit.id).filter
          (fun f => decide (f < unit.currentFloor)))⟩) := by
    unfold executeNext
    rw [if_neg hqne, if_pos (Or.inl hh), if_neg (by simpa using hupe)]
    dsimp only
    rw [if_pos hlowne, if_pos hlowne]
  refine ⟨by rw [heq], hmax2.1, by simpa using hmax2.2, ?_, ?_⟩
  · intro f hf hcf
    exact le_listMax _ f (List.mem_filter.mpr ⟨hf, by simpa using hcf⟩)
  · rw [heq]
    exact Function.update_same unit.id Heading.down st.unitHeading

theorem executeNext_down_forward (st : AlgoState) (unit : AlgoElev)
    (hh : st.unitHeading unit.id = Heading.down)
    (f0 : Nat) (hf0 : f0 ∈ st.serviceQueue unit.id) (hlt : f0 < unit.currentFloor) :
    (executeNext st unit).2 =
      some ⟨unit.id, listMax ((st.serviceQueue unit.id).filter
        (fun f => decide (f < unit.currentFloor)))⟩ ∧
    listMax ((st.serviceQueue unit.id).filter (fun f => decide (f < unit.currentFloor)))
      ∈ st.serviceQueue unit.id ∧
    listMax ((st.serviceQueue unit.id).filter (fun f => decide (f < unit.currentFloor)))
      < unit.currentFloor ∧
    (∀ f ∈ st.serviceQueue unit.id, f < unit.currentFloor →
      f ≤ listMax ((st.serviceQueue unit.id).filter (fun f => decide (f < unit.currentFloor)))) ∧
    (executeNext st unit).1.unitHeading unit.id = Heading.down := by
  have hqne : st.serviceQueue unit.id ≠ [] := List.ne_nil_of_mem hf0
  have hlow : f0 ∈ (st.serviceQueue unit.id).filter (fun f => decide (f < unit.currentFloor)) :=
    List.mem_filter.mpr ⟨hf0, by simpa using hlt⟩
  have hlowne : (st.serviceQueue unit.id).filter (fun f => decide (f < unit.currentFloor)) ≠ [] :=
    List.ne_nil_of_mem hlow
  have hmax := listMax_mem _ hlowne
  have hmax2 := List.mem_filter.mp hmax
  have hnotup : ¬ (st.unitHeading unit.id = Heading.up ∨ st.unitHeading unit.id = Heading.none) := by
    rw [hh]
    rintro (h | h) <;> cases h
  have heq : executeNext st unit =
      ({ st with unitHeading := Function.update st.unitHeading unit.id Heading.down },
        some ⟨unit.id, listMax ((st.serviceQueue unit.id).filter
          (fun f => decide (f < unit.currentFloor)))⟩) := by
    unfold executeNext
    rw [if_neg hqne, if_neg hnotup, if_pos hlowne]
  refine ⟨by rw [heq], hmax2.1, by simpa using hmax2.2, ?_, ?_⟩
  · intro f hf hcf
    exact le_listMax _ f (List.mem_filter.mpr ⟨hf, by simpa using hcf⟩)
  · rw [heq]
    exact Function.update_same unit.id Heading.down st.unitHeading

theorem executeNext_down_reverse (st : AlgoState) (unit : AlgoElev)
    (hh : st.unitHeading unit.id = Heading.down)
    (hnone : ∀ f ∈ st.serviceQueue unit.id, ¬ f < unit.currentFloor)
    (f0 : Nat) (hf0 : f0 ∈ st.serviceQueue unit.id) (hlt : unit.currentFloor < f0) :
    (executeNext st unit).2 =
      some ⟨unit.id, listMin ((st.serviceQueue unit.id).filter
        (fun f => decide (unit.currentFloor < f)))⟩ ∧
    listMin ((st.serviceQueue unit.id).filter (fun f => decide (unit.currentFloor < f)))
      ∈ st.serviceQueue unit.id ∧
    unit.currentFloor <
      listMin ((st.serviceQueue unit.id).filter (fun f => decide (unit.currentFloor < f))) ∧
    (∀ f ∈ st.serviceQueue unit.id, unit.currentFloor < f →
      listMin ((st.serviceQueue unit.id).filter (fun f => decide (unit.currentFloor < f))) ≤ f) ∧
    (executeNext st unit).1.unitHeading unit.id = Heading.up := by
  have hqne : st.serviceQueue unit.id ≠ [] := List.ne_nil_of_mem hf0
  have hlowe : (st.serviceQueue unit.id).filter (fun f => decide (f < unit.currentFloor)) = [] := by
    rw [List.filter_eq_nil_iff]
    intro f hf
    simpa using hnone f hf
  have hup : f0 ∈ (st.serviceQueue unit.id).filter (fun f => decide (unit.currentFloor < f)) :=
    List.mem_filter.mpr ⟨hf0, by simpa using hlt⟩
  have hupne : (st.serviceQueue unit.id).filter (fun f => decide (unit.currentFloor < f)) ≠ [] :=
    List.ne_nil_of_mem hup
  have hmin := listMin_mem _ hupne
  have hmin2 := List.mem_filter.mp hmin
  have hnotup : ¬ (st.unitHeading unit.id = Heading.up ∨ st.unitHeading unit.id = Heading.none) := by
    rw [hh]
    rintro (h | h) <;> cases h
  have heq : executeNext st unit =
      ({ st with unitHeading := Function.update st.unitHeading unit.id Heading.up },
        some ⟨unit.id, listMin ((st.serviceQueue unit.id).filter
          (fun f => decide (unit.currentFloor < f)))⟩) := by
    unfold executeNext
    rw [if_neg hqne, if_neg hnotup, if_neg (by simpa using hlowe)]
    dsimp only
    rw [if_pos hupne, if_pos hupne]
  refine ⟨by rw [heq], hmin2.1, by simpa using hmin2.2, ?_, ?_⟩
  · intro f hf hcf
    exact listMin_le _ f (List.mem_filter.mpr ⟨hf, by simpa using hcf⟩)
  · rw [heq]
    exact Function.update_same unit.id Heading.up st.unitHeading

/-- C5: at each replanning of a scanning car — _execute_next of
algorithm_only.py over the service queue, and _assign_next_floor of
elevator_planner.py over the SCAN pool — the car never selects a stop
behind its current floor in its travel direction while a stop strictly
ahead exists: it picks the nearest stop ahead and keeps its direction.
When no stop lies ahead (and one lies behind, resp. the opposite pool is
nonempty) the direction reverses exactly once within the call and the
nearest stop in the new direction is chosen. -/
theorem C5_direction_monotonicity (st : AlgoState) (unit : AlgoElev)
    (s : PlannerState) (e : Elev) :
    (st.unitHeading unit.id = Heading.up →
      ∀ f0 ∈ st.serviceQueue unit.id, unit.currentFloor < f0 →
      ∃ nf, (executeNext st unit).2 = some ⟨unit.id, nf⟩ ∧ nf ∈ st.serviceQueue unit.id ∧
        unit.currentFloor < nf ∧
        (∀ f ∈ st.serviceQueue unit.id, unit.currentFloor < f → nf ≤ f) ∧
        (executeNext st unit).1.unitHeading unit.id = Heading.up) ∧
    (st.unitHeading unit.id = Heading.up →
      (∀ f ∈ st.serviceQueue unit.id, ¬ unit.currentFloor < f) →
      ∀ f0 ∈ st.serviceQueue unit.id, f0 < unit.currentFloor →
      ∃ nf, (executeNext st unit).2 = some ⟨unit.id, nf⟩ ∧ nf ∈ st.serviceQueue unit.id ∧
        nf < unit.currentFloor ∧
        (∀ f ∈ st.serviceQueue unit.id, f < unit.currentFloor → f ≤ nf) ∧
        (executeNext st unit).1.unitHeading unit.id = Heading.down) ∧
    (st.unitHeading unit.id = Heading.down →
      ∀ f0 ∈ st.serviceQueue unit.id, f0 < unit.currentFloor →
      ∃ nf, (executeNext st unit).2 = some ⟨unit.id, nf⟩ ∧ nf ∈ st.serviceQueue unit.id ∧
        nf < unit.currentFloor ∧
        (∀ f ∈ st.serviceQueue unit.id, f < unit.currentFloor → f ≤ nf) ∧
        (executeNext st unit).1.unitHeading unit.id = Heading.down) ∧
    (st.unitHeading unit.id = Heading.down →
      (∀ f ∈ st.serviceQueue unit.id, ¬ f < unit.currentFloor) →
      ∀ f0 ∈ st.serviceQueue unit.id, unit.currentFloor < f0 →
      ∃ nf, (executeNext st unit).2 = some ⟨unit.id, nf⟩ ∧ nf ∈ st.serviceQueue unit.id ∧
        unit.currentFloor < nf ∧
        (∀ f ∈ st.serviceQueue unit.id, unit.currentFloor < f → nf ≤ f) ∧
        (executeNext st unit).1.unitHeading unit.id = Heading.up) ∧
    ((getFloorsInDirection s e.id e.currentFloor (s.directions e.id)).Nonempty →
      ∃ nf, (assignNextFloor s e).2 = [⟨e.id, nf⟩] ∧
        nf ∈ getFloorsInDirection s e.id e.currentFloor (s.directions e.id) ∧
        aheadOf (s.directions e.id) nf e.currentFloor = true ∧
        (∀ f ∈ getFloorsInDirection s e.id e.currentFloor (s.directions e.id),
          Nat.dist nf e.currentFloor ≤ Nat.dist f e.currentFloor) ∧
        (assignNextFloor s e).1.directions e.id = s.directions e.id) ∧
    (getFloorsInDirection s e.id e.currentFloor (s.directions e.id) = ∅ →
      (getFloorsInDirection s e.id e.currentFloor (s.directions e.id).flip).Nonempty →
      ∃ nf, (assignNextFloor s e).2 = [⟨e.id, nf⟩] ∧
        nf ∈ getFloorsInDirection s e.id e.currentFloor (s.directions e.id).flip ∧
        aheadOf (s.directions e.id).flip nf e.currentFloor = true ∧
        (∀ f ∈ getFloorsInDirection s e.id e.currentFloor (s.directions e.id).flip,
          Nat.dist nf e.currentFloor ≤ Nat.dist f e.currentFloor) ∧
        (assignNextFloor s e).1.directions e.id = (s.directions e.id).flip) := by
  refine ⟨?_, ?_, ?_, ?_, ?_, ?_⟩
  · intro hh f0 hf0 hlt
    obtain ⟨h1, h2, h3, h4, h5⟩ := executeNext_up_forward st unit hh f0 hf0 hlt
    exact ⟨_, h1, h2, h3, h4, h5⟩
  · intro hh hnone f0 hf0 hlt
    obtain ⟨h1, h2, h3, h4, h5⟩ := executeNext_up_reverse st unit hh hnone f0 hf0 hlt
    exact ⟨_, h1, h2, h3, h4, h5⟩
  · intro hh f0 hf0 hlt
    obtain ⟨h1, h2, h3, h4, h5⟩ := executeNext_down_forward st unit hh f0 hf0 hlt
    exact ⟨_, h1, h2, h3, h4, h5⟩
  · intro hh hnone f0 hf0 hlt
    obtain ⟨h1, h2, h3, h4, h5⟩ := executeNext_down_reverse st unit hh hnone f0 hf0 hlt
    exact ⟨_, h1, h2, h3, h4, h5⟩
  · intro h
    have heq := assignNextFloor_forward_eq s e h
    refine ⟨scanSel (s.directions e.id)
        (getFloorsInDirection s e.id e.currentFloor (s.directions e.id)),
      by rw [heq], scanSel_mem _ _ h,
      getFloors_ahead s e.id e.currentFloor _ _ (scanSel_mem _ _ h),
      scanSel_nearest _ s e.id e.currentFloor h, ?_⟩
    rw [heq]
  · intro hA hB
    have heq := assignNextFloor_reverse_eq s e hA hB
    refine ⟨scanSel (s.directions e.id).flip
        (getFloorsInDirection s e.id e.currentFloor (s.directions e.id).flip),
      by rw [heq], scanSel_mem _ _ hB,
      getFloors_ahead s e.id e.currentFloor _ _ (scanSel_mem _ _ hB),
      scanSel_nearest _ s e.id e.currentFloor hB, ?_⟩
    rw [heq]
    exact Function.update_same e.id (s.directions e.id).flip s.directions

/-- The moving state with a pending service queue [6, 8] for every car. -/
def algoScanState : AlgoState :=
  { algoMovingState with serviceQueue := fun _ => [6, 8] }

theorem C5_direction_monotonicity_witness :
    (∃ nf, (executeNext algoScanState ⟨0, 3, 0, Option.none⟩).2 = some ⟨0, nf⟩ ∧
      nf ∈ algoScanState.serviceQueue 0 ∧ 3 < nf ∧
      (∀ f ∈ algoScanState.serviceQueue 0, 3 < f → nf ≤ f) ∧
      (executeNext algoScanState ⟨0, 3, 0, Option.none⟩).1.unitHeading 0 = Heading.up) ∧
    (∃ nf, (assignNextFloor (registerCall plannerScanState 5 Dir.up) ⟨0, 2, 0⟩).2 =
        [⟨0, nf⟩] ∧
      nf ∈ getFloorsInDirection (registerCall plannerScanState 5 Dir.up) 0 2 Dir.up ∧
      aheadOf Dir.up nf 2 = true ∧
      (∀ f ∈ getFloorsInDirection (registerCall plannerScanState 5 Dir.up) 0 2 Dir.up,
        Nat.dist nf 2 ≤ Nat.dist f 2) ∧
      (assignNextFloor (registerCall plannerScanState 5 Dir.up) ⟨0, 2, 0⟩).1.directions 0 =
        Dir.up) :=
  ⟨(C5_direction_monotonicity algoScanState ⟨0, 3, 0, Option.none⟩
      (registerCall plannerScanState 5 Dir.up) ⟨0, 2, 0⟩).1 rfl 6 (by decide) (by decide),
    (C5_direction_monotonicity algoScanState ⟨0, 3, 0, Option.none⟩
      (registerCall plannerScanState 5 Dir.up) ⟨0, 2, 0⟩).2.2.2.2.1 (by decide)⟩

/-- C7 (amended): on_passenger_alight of elevator_planner.py removes only
that passenger's destination record: the car's targetFloors, direction,
lifecycle state, the global request sets, the resting floors and every
other car's records are untouched, so a floor still wanted by another
passenger stays.  In algorithm_only.py, however, on_passenger_alight
additionally removes the alight floor from the car's service queue (the
first occurrence, even when other onboard passengers still target it),
besides dropping the passenger from both per-car registries. -/
theorem C7_alight_frame (s : PlannerState) (eid pid floorNum : Nat) (st : AlgoState) :
    ((plannerOnPassengerAlight s eid pid floorNum).passengerDests eid =
      dictErase (s.passengerDests eid) pid) ∧
    ((plannerOnPassengerAlight s eid pid floorNum).targetFloors = s.targetFloors) ∧
    ((plannerOnPassengerAlight s eid pid floorNum).directions = s.directions) ∧
    ((plannerOnPassengerAlight s eid pid floorNum).states = s.states) ∧
    ((plannerOnPassengerAlight s eid pid floorNum).upRequests = s.upRequests) ∧
    ((plannerOnPassengerAlight s eid pid floorNum).downRequests = s.downRequests) ∧
    ((plannerOnPassengerAlight s eid pid floorNum).restingFloors = s.restingFloors) ∧
    (∀ k, k ≠ eid → (plannerOnPassengerAlight s eid pid floorNum).passengerDests k =
      s.passengerDests k) ∧
    ((algoOnPassengerAlight st eid pid floorNum).serviceQueue eid =
      (st.serviceQueue eid).erase floorNum) ∧
    ((algoOnPassengerAlight st eid pid floorNum).passengerRegistry eid =
      dictErase (st.passengerRegistry eid) pid) ∧
    ((algoOnPassengerAlight st eid pid floorNum).unitHeading = st.unitHeading) ∧
    ((algoOnPassengerAlight st eid pid floorNum).unitState = st.unitState) := by
  refine ⟨?_, rfl, rfl, rfl, rfl, rfl, rfl, ?_, ?_, ?_, ?_, ?_⟩
  · exact Function.update_same eid _ s.passengerDests
  · intro k hk
    exact Function.update_noteq hk _ s.passengerDests
  · cases hu : st.userData pid <;>
      simp [algoOnPassengerAlight, hu, Function.update_same]
  · cases hu : st.userData pid <;>
      simp [algoOnPassengerAlight, hu, Function.update_same]
  · cases hu : st.userData pid <;>
      simp [algoOnPassengerAlight, hu]
  · cases hu : st.userData pid <;>
      simp [algoOnPassengerAlight, hu]

theorem C7_alight_frame_witness :
    (plannerOnPassengerAlight plannerScanState 0 1 5).passengerDests 1 =
      plannerScanState.passengerDests 1 ∧
    (algoOnPassengerAlight algoScanState 0 1 6).serviceQueue 0 =
      (algoScanState.serviceQueue 0).erase 6 :=
  ⟨(C7_alight_frame plannerScanState 0 1 5 algoScanState).2.2.2.2.2.2.2.1 1 (by decide),
    (C7_alight_frame plannerScanState 0 1 6 algoScanState).2.2.2.2.2.2.2.2.1⟩

/-- A moving-state fleet where car 0 still owes floor 5 to two onboard
passengers (ids 1 and 2). -/
def algoTwoPassengerState : AlgoState :=
  { algoMovingState with
      serviceQueue := fun _ => [5],
      passengerRegistry := fun _ => {(1, 5), (2, 5)},
      elevatorGoals := fun _ => {(1, 5), (2, 5)} }

/-- C7 counterexample: passenger 1 alights at floor 5 while passenger 2
(still onboard) also targets floor 5; algorithm_only.py nevertheless
removes floor 5 from the service queue — the floor is not left in the
car's target queue as the claim states. -/
theorem C7_counterexample :
    5 ∈ algoTwoPassengerState.serviceQueue 0 ∧
    (2, 5) ∈ (algoOnPassengerAlight algoTwoPassengerState 0 1 5).passengerRegistry 0 ∧
    (algoOnPassengerAlight algoTwoPassengerState 0 1 5).serviceQueue 0 = [] := by
  decide

/-- C9 (amended): every transition into resting performed by
on_elevator_idle leaves that car with an empty target set and issues no
move command (the idle handler clears the target set before deciding).
The stop handler's transition into resting, however, only removes the
stopped floor, so a resting car can retain stale target floors — see the
counterexample trace. -/
theorem C9_idle_resting_empty (s : PlannerState) (e : Elev)
    (h : (onElevatorIdle s e).1.states e.id = LifecycleState.resting) :
    (onElevatorIdle s e).1.targetFloors e.id = ∅ ∧ (onElevatorIdle s e).2 = [] := by
  unfold onElevatorIdle at h ⊢
  by_cases hc : hasPendingRequests
      { s with targetFloors := Function.update s.targetFloors e.id ∅ } ∨
      hasInternalRequests
      { s with targetFloors := Function.update s.targetFloors e.id ∅ } e.id
  · rw [if_pos hc] at h ⊢
    rcases Finset.eq_empty_or_nonempty
        (getFloorsInDirection
          { s with
              targetFloors := Function.update s.targetFloors e.id ∅,
              states := Function.update s.states e.id LifecycleState.scanning }
          e.id e.currentFloor
          (({ s with
              targetFloors := Function.update s.targetFloors e.id ∅,
              states := Function.update s.states e.id LifecycleState.scanning } :
            PlannerState).directions e.id)) with hA | hA
    · rcases Finset.eq_empty_or_nonempty
          (getFloorsInDirection
            { s with
                targetFloors := Function.update s.targetFloors e.id ∅,
                states := Function.update s.states e.id LifecycleState.scanning }
            e.id e.currentFloor
            (({ s with
                targetFloors := Function.update s.targetFloors e.id ∅,
                states := Function.update s.states e.id LifecycleState.scanning } :
              PlannerState).directions e.id).flip) with hB | hB
      · rw [assignNextFloor_rest_eq _ e hA hB] at h ⊢
        constructor
        · exact Function.update_same e.id ∅ s.targetFloors
        · rfl
      · rw [assignNextFloor_reverse_eq _ e hA hB] at h
        have hcontra : LifecycleState.scanning = LifecycleState.resting := by
          rw [← h]
          exact (Function.update_same e.id LifecycleState.scanning s.states).symm
        cases hcontra
    · rw [assignNextFloor_forward_eq _ e hA] at h
      have hcontra : LifecycleState.scanning = LifecycleState.resting := by
        rw [← h]
        exact (Function.update_same e.id LifecycleState.scanning s.states).symm
      cases hcontra
  · rw [if_neg hc] at h ⊢
    constructor
    · exact Function.update_same e.id ∅ s.targetFloors
    · rfl

theorem C9_idle_resting_empty_witness :
    (onElevatorIdle plannerRestState ⟨0, 2, 0⟩).1.targetFloors 0 = ∅ ∧
    (onElevatorIdle plannerRestState ⟨0, 2, 0⟩).2 = [] :=
  C9_idle_resting_empty plannerRestState ⟨0, 2, 0⟩ (by decide)

/-! ## A reachable trace of the planner: engine events driving the
dispatcher.  An event is either a passenger call or an elevator stop; a
stop for a car is only valid at the floor the dispatcher last commanded
that car to (the engine moves a car exactly to its go_to_floor target).
Event delivery order across different cars is externally chosen by the
engine (the specification fixes no relative timing). -/

inductive PEvent
  | call (floorNum : Nat) (direction : Dir)
  | stopped (car : Nat) (floorNum : Nat)
deriving DecidableEq, Repr

/-- The dispatcher state together with the engine-side car positions and
each car's outstanding commanded floor. -/
structure World where
  ps : PlannerState
  pos : Nat → Nat
  pend : Nat → Option Nat

def applyCmds (pend : Nat → Option Nat) : List Cmd → (Nat → Option Nat)
  | [] => pend
  | c :: rest => applyCmds (Function.update pend c.car (some c.floor)) rest

def fleetOf (ids : List Nat) (w : World) : List Elev :=
  ids.map (fun i => ⟨i, w.pos i, 0⟩)

/-- One engine event processed by the dispatcher; None when the event is
invalid (a stop reported away from the commanded floor). -/
def wstep (ids : List Nat) (w : World) : PEvent → Option World
  | .call floorNum d =>
    let r := onPassengerCall w.ps (fleetOf ids w) floorNum d
    some ⟨r.1, w.pos, applyCmds w.pend r.2⟩
  | .stopped c floorNum =>
    if w.pend c = some floorNum then
      let r := onElevatorStopped w.ps ⟨c, floorNum, 0⟩ floorNum
      some ⟨r.1, Function.update w.pos c floorNum,
        applyCmds (Function.update w.pend c Option.none) r.2⟩
    else Option.none

def runEvents (ids : List Nat) : World → List PEvent → Option World
  | w, [] => some w
  | w, ev :: rest =>
    match wstep ids w ev with
    | some w1 => runEvents ids w1 rest
    | Option.none => Option.none

/-- The post-initialisation world of a two-car fleet on floors 0..9: both
cars resting at their computed home floors 2 and 7 with no commands
outstanding (the values 2 and 7 are exactly calculateRestingFloor 9 i 2,
see C6_home_floor). -/
def initialWorld : World where
  ps := plannerRestState
  pos := fun i => if i = 0 then 2 else 7
  pend := fun _ => Option.none

/-- The event trace: three up-calls at floors 5, 6 and 3; car 1 is woken
toward 5 and redirected to also serve 6; car 0 is woken toward 3 and then
sweeps 3, 5, 6, clearing all three calls and resting; car 1 finally
arrives at its commanded floor 5 with floor 6 still in its target set and
rests. -/
def staleTargetTrace : List PEvent :=
  [PEvent.call 5 Dir.up, PEvent.call 6 Dir.up, PEvent.call 3 Dir.up,
    PEvent.stopped 0 3, PEvent.stopped 0 5, PEvent.stopped 0 6,
    PEvent.stopped 1 5]

def staleTargetCheck : Option World → Bool
  | some w =>
    decide (w.ps.states 1 = LifecycleState.resting) &&
      decide (w.ps.targetFloors 1 ≠ ∅) &&
      decide (w.ps.targetFloors 1 = ({6} : Finset Nat))
  | Option.none => false

/-- C9 counterexample: running the dispatcher on a valid engine trace from
the initialised two-car world reaches a state where car 1 is RESTING with
the nonempty target set {6} — entering resting through
on_elevator_stopped does not require (and does not establish) an empty
target set. -/
theorem C9_counterexample :
    staleTargetCheck (runEvents [0, 1] initialWorld staleTargetTrace) = true := by
  decide

theorem assignNextFloor_forward_dir (s : PlannerState) (e : Elev) (d : Dir)
    (hd : s.directions e.id = d)
    (hA : (getFloorsInDirection s e.id e.currentFloor d).Nonempty) :
    assignNextFloor s e =
      ({ s with targetFloors := (Function.update s.targetFloors e.id
          (insert (scanSel d (getFloorsInDirection s e.id e.currentFloor d))
            (s.targetFloors e.id))) },
        [⟨e.id, scanSel d (getFloorsInDirection s e.id e.currentFloor d)⟩]) := by
  subst hd
  exact assignNextFloor_forward_eq s e hA

theorem assignNextFloor_reverse_dir (s : PlannerState) (e : Elev) (d : Dir)
    (hd : s.directions e.id = d)
    (hA : getFloorsInDirection s e.id e.currentFloor d = ∅)
    (hB : (getFloorsInDirection s e.id e.currentFloor d.flip).Nonempty) :
    assignNextFloor s e =
      ({ s with
          directions := (Function.update s.directions e.id d.flip),
          targetFloors := (Function.update s.targetFloors e.id
            (insert (scanSel d.flip (getFloorsInDirection s e.id e.currentFloor d.flip))
              (s.targetFloors e.id))) },
        [⟨e.id, scanSel d.flip (getFloorsInDirection s e.id e.currentFloor d.flip)⟩]) := by
  subst hd
  exact assignNextFloor_reverse_eq s e hA hB

theorem assignNextFloor_rest_dir (s : PlannerState) (e : Elev) (d : Dir)
    (hd : s.directions e.id = d)
    (hA : getFloorsInDirection s e.id e.currentFloor d = ∅)
    (hB : getFloorsInDirection s e.id e.currentFloor d.flip = ∅) :
    assignNextFloor s e =
      (enterRestingState
        { s with directions := (Function.update s.directions e.id d.flip) } e, []) := by
  subst hd
  exact assignNextFloor_rest_eq s e hA hB

theorem onIdle_rest_eq (s : PlannerState) (e : Elev)
    (hP : ¬ (hasPendingRequests s ∨ hasInternalRequests s e.id)) :
    onElevatorIdle s e =
      ({ s with
          targetFloors := (Function.update s.targetFloors e.id ∅),
          states := (Function.update s.states e.id LifecycleState.resting),
          restingFloors := (Function.update s.restingFloors e.id e.currentFloor) }, []) := by
  unfold onElevatorIdle
  dsimp only
  split_ifs with h
  · exact absurd h hP
  · rfl

theorem onIdle_forward_eq (s : PlannerState) (e : Elev) (d : Dir)
    (hd : s.directions e.id = d)
    (hP : hasPendingRequests s ∨ hasInternalRequests s e.id)
    (hA : (getFloorsInDirection s e.id e.currentFloor d).Nonempty) :
    onElevatorIdle s e =
      ({ s with
          targetFloors := (Function.update s.targetFloors e.id
            (insert (scanSel d (getFloorsInDirection s e.id e.currentFloor d)) ∅)),
          states := (Function.update s.states e.id LifecycleState.scanning) },
        [⟨e.id, scanSel d (getFloorsInDirection s e.id e.currentFloor d)⟩]) := by
  have hd2 : ({ s with
      targetFloors := Function.update s.targetFloors e.id ∅,
      states := Function.update s.states e.id LifecycleState.scanning } :
        PlannerState).directions e.id = d := hd
  have hA2 : (getFloorsInDirection
      { s with
          targetFloors := Function.update s.targetFloors e.id ∅,
          states := Function.update s.states e.id LifecycleState.scanning }
      e.id e.currentFloor d).Nonempty := hA
  unfold onElevatorIdle
  dsimp only
  split_ifs with h
  · rw [assignNextFloor_forward_dir _ e d hd2 hA2]
    simp only [Function.update_idem, Function.update_same]
    rfl
  · exact absurd hP h

theorem onIdle_reverse_eq (s : PlannerState) (e : Elev) (d : Dir)
    (hd : s.directions e.id = d)
    (hP : hasPendingRequests s ∨ hasInternalRequests s e.id)
    (hA : getFloorsInDirection s e.id e.currentFloor d = ∅)
    (hB : (getFloorsInDirection s e.id e.currentFloor d.flip).Nonempty) :
    onElevatorIdle s e =
      ({ s with
          directions := (Function.update s.directions e.id d.flip),
          targetFloors := (Function.update s.targetFloors e.id
            (insert (scanSel d.flip (getFloorsInDirection s e.id e.currentFloor d.flip)) ∅)),
          states := (Function.update s.states e.id LifecycleState.scanning) },
        [⟨e.id, scanSel d.flip (getFloorsInDirection s e.id e.currentFloor d.flip)⟩]) := by
  have hd2 : ({ s with
      targetFloors := Function.update s.targetFloors e.id ∅,
      states := Function.update s.states e.id LifecycleState.scanning } :
        PlannerState).directions e.id = d := hd
  have hA2 : getFloorsInDirection
      { s with
          targetFloors := Function.update s.targetFloors e.id ∅,
          states := Function.update s.states e.id LifecycleState.scanning }
      e.id e.currentFloor d = ∅ := hA
  have hB2 : (getFloorsInDirection
      { s with
          targetFloors := Function.update s.targetFloors e.id ∅,
          states := Function.update s.states e.id LifecycleState.scanning }
      e.id e.currentFloor d.flip).Nonempty := hB
  unfold onElevatorIdle
  dsimp only
  split_ifs with h
  · rw [assignNextFloor_reverse_dir _ e d hd2 hA2 hB2]
    simp only [Function.update_idem, Function.update_same]
    rfl
  · exact absurd hP h

theorem onIdle_bothEmpty_eq (s : PlannerState) (e : Elev) (d : Dir)
    (hd : s.directions e.id = d)
    (hP : hasPendingRequests s ∨ hasInternalRequests s e.id)
    (hA : getFloorsInDirection s e.id e.currentFloor d = ∅)
    (hB : getFloorsInDirection s e.id e.currentFloor d.flip = ∅) :
    onElevatorIdle s e =
      ({ s with
          directions := (Function.update s.directions e.id d.flip),
          targetFloors := (Function.update s.targetFloors e.id ∅),
          states := (Function.update s.states e.id LifecycleState.resting),
          restingFloors := (Function.update s.restingFloors e.id e.currentFloor) }, []) := by
  have hd2 : ({ s with
      targetFloors := Function.update s.targetFloors e.id ∅,
      states := Function.update s.states e.id LifecycleState.scanning } :
        PlannerState).directions e.id = d := hd
  have hA2 : getFloorsInDirection
      { s with
          targetFloors := Function.update s.targetFloors e.id ∅,
          states := Function.update s.states e.id LifecycleState.scanning }
      e.id e.currentFloor d = ∅ := hA
  have hB2 : getFloorsInDirection
      { s with
          targetFloors := Function.update s.targetFloors e.id ∅,
          states := Function.update s.states e.id LifecycleState.scanning }
      e.id e.currentFloor d.flip = ∅ := hB
  unfold onElevatorIdle
  dsimp only
  split_ifs with h
  · rw [assignNextFloor_rest_dir _ e d hd2 hA2 hB2]
    simp only [enterRestingState, Function.update_idem, Function.update_same]
  · exact absurd hP h

/-- C8 (amended): calling on_elevator_idle twice in a row with no
intervening events produces the same resulting state as calling it once,
and each call issues at most one moveCommand, the second being an exact
re-issue of the first (never a diverging command) — PROVIDED the pending
work, if any, does not lie exclusively at the car's own floor.  In the
excluded case (pending requests exist but the replanning pool is empty on
both sides) each call flips the stored direction, so the state oscillates
— see the counterexample. -/
theorem C8_idle_idempotent (s : PlannerState) (e : Elev)
    (hexc : (hasPendingRequests s ∨ hasInternalRequests s e.id) →
      (getFloorsInDirection s e.id e.currentFloor (s.directions e.id)).Nonempty ∨
      (getFloorsInDirection s e.id e.currentFloor (s.directions e.id).flip).Nonempty) :
    (onElevatorIdle (onElevatorIdle s e).1 e).1 = (onElevatorIdle s e).1 ∧
    (onElevatorIdle (onElevatorIdle s e).1 e).2 = (onElevatorIdle s e).2 ∧
    (onElevatorIdle s e).2.length ≤ 1 := by
  by_cases hP : hasPendingRequests s ∨ hasInternalRequests s e.id
  · rcases Finset.eq_empty_or_nonempty
        (getFloorsInDirection s e.id e.currentFloor (s.directions e.id)) with hA | hA
    · rcases Finset.eq_empty_or_nonempty
          (getFloorsInDirection s e.id e.currentFloor (s.directions e.id).flip) with hB | hB
      · rcases hexc hP with h | h
        · rw [hA] at h
          exact absurd h Finset.not_nonempty_empty
        · rw [hB] at h
          exact absurd h Finset.not_nonempty_empty
      · have h1 := onIdle_reverse_eq s e (s.directions e.id) rfl hP hA hB
        have hdir : ({ s with
            directions := (Function.update s.directions e.id (s.directions e.id).flip),
            targetFloors := (Function.update s.targetFloors e.id
              (insert (scanSel (s.directions e.id).flip
                  (getFloorsInDirection s e.id e.currentFloor (s.directions e.id).flip)) ∅)),
            states := (Function.update s.states e.id LifecycleState.scanning) } :
              PlannerState).directions e.id = (s.directions e.id).flip :=
          Function.update_same e.id (s.directions e.id).flip s.directions
        have hPs : hasPendingRequests { s with
            directions := (Function.update s.directions e.id (s.directions e.id).flip),
            targetFloors := (Function.update s.targetFloors e.id
              (insert (scanSel (s.directions e.id).flip
                  (getFloorsInDirection s e.id e.currentFloor (s.directions e.id).flip)) ∅)),
            states := (Function.update s.states e.id LifecycleState.scanning) } ∨
            hasInternalRequests { s with
            directions := (Function.update s.directions e.id (s.directions e.id).flip),
            targetFloors := (Function.update s.targetFloors e.id
              (insert (scanSel (s.directions e.id).flip
                  (getFloorsInDirection s e.id e.currentFloor (s.directions e.id).flip)) ∅)),
            states := (Function.update s.states e.id LifecycleState.scanning) } e.id := hP
        have hAs : (getFloorsInDirection { s with
            directions := (Function.update s.directions e.id (s.directions e.id).flip),
            targetFloors := (Function.update s.targetFloors e.id
              (insert (scanSel (s.directions e.id).flip
                  (getFloorsInDirection s e.id e.currentFloor (s.directions e.id).flip)) ∅)),
            states := (Function.update s.states e.id LifecycleState.scanning) }
            e.id e.currentFloor (s.directions e.id).flip).Nonempty := hB
        have h2 := onIdle_forward_eq _ e ((s.directions e.id).flip) hdir hPs hAs
        rw [h1]
        dsimp only
        rw [h2]
        refine ⟨?_, ?_, ?_⟩
        · simp only [Function.update_idem]
          rfl
        · rfl
        · simp
    · have h1 := onIdle_forward_eq s e (s.directions e.id) rfl hP hA
      have hdir : ({ s with
          targetFloors := (Function.update s.targetFloors e.id
            (insert (scanSel (s.directions e.id)
                (getFloorsInDirection s e.id e.currentFloor (s.directions e.id))) ∅)),
          states := (Function.update s.states e.id LifecycleState.scanning) } :
            PlannerState).directions e.id = s.directions e.id := rfl
      have hPs : hasPendingRequests { s with
          targetFloors := (Function.update s.targetFloors e.id
            (insert (scanSel (s.directions e.id)
                (getFloorsInDirection s e.id e.currentFloor (s.directions e.id))) ∅)),
          states := (Function.update s.states e.id LifecycleState.scanning) } ∨
          hasInternalRequests { s with
          targetFloors := (Function.update s.targetFloors e.id
            (insert (scanSel (s.directions e.id)
                (getFloorsInDirection s e.id e.currentFloor (s.directions e.id))) ∅)),
          states := (Function.update s.states e.id LifecycleState.scanning) } e.id := hP
      have hAs : (getFloorsInDirection { s with
          targetFloors := (Function.update s.targetFloors e.id
            (insert (scanSel (s.directions e.id)
                (getFloorsInDirection s e.id e.currentFloor (s.directions e.id))) ∅)),
          states := (Function.update s.states e.id LifecycleState.scanning) }
          e.id e.currentFloor (s.directions e.id)).Nonempty := hA
      have h2 := onIdle_forward_eq _ e (s.directions e.id) hdir hPs hAs
      rw [h1]
      dsimp only
      rw [h2]
      refine ⟨?_, ?_, ?_⟩
      · simp only [Function.update_idem]
        rfl
      · rfl
      · simp
  · have h1 := onIdle_rest_eq s e hP
    have hPs : ¬ (hasPendingRequests { s with
        targetFloors := (Function.update s.targetFloors e.id ∅),
        states := (Function.update s.states e.id LifecycleState.resting),
        restingFloors := (Function.update s.restingFloors e.id e.currentFloor) } ∨
        hasInternalRequests { s with
        targetFloors := (Function.update s.targetFloors e.id ∅),
        states := (Function.update s.states e.id LifecycleState.resting),
        restingFloors := (Function.update s.restingFloors e.id e.currentFloor) } e.id) := hP
    have h2 := onIdle_rest_eq _ e hPs
    rw [h1]
    dsimp only
    rw [h2]
    refine ⟨?_, rfl, by simp⟩
    simp only [Function.update_idem]

theorem C8_idle_idempotent_witness :
    (onElevatorIdle
        (onElevatorIdle (registerCall plannerRestState 5 Dir.up) ⟨0, 2, 0⟩).1 ⟨0, 2, 0⟩).1 =
      (onElevatorIdle (registerCall plannerRestState 5 Dir.up) ⟨0, 2, 0⟩).1 ∧
    (onElevatorIdle
        (onElevatorIdle (registerCall plannerRestState 5 Dir.up) ⟨0, 2, 0⟩).1 ⟨0, 2, 0⟩).2 =
      (onElevatorIdle (registerCall plannerRestState 5 Dir.up) ⟨0, 2, 0⟩).2 ∧
    (onElevatorIdle (registerCall plannerRestState 5 Dir.up) ⟨0, 2, 0⟩).2.length ≤ 1 :=
  C8_idle_idempotent (registerCall plannerRestState 5 Dir.up) ⟨0, 2, 0⟩
    (fun _ => Or.inl (by decide))

/-- A fleet with one pending up-call exactly at the car's current floor 3
and nothing else to do. -/
def pendingOwnFloorState : PlannerState :=
  { plannerRestState with upRequests := {3} }

/-- C8 counterexample: with the only pending call at the car's own floor,
on_elevator_idle flips the stored direction each time it is called: after
one call the car's direction is down, after two calls it is up again —
the two calls do NOT produce the same resulting state. -/
theorem C8_counterexample :
    (onElevatorIdle pendingOwnFloorState ⟨0, 3, 0⟩).1.directions 0 = Dir.down ∧
    (onElevatorIdle (onElevatorIdle pendingOwnFloorState ⟨0, 3, 0⟩).1 ⟨0, 3, 0⟩).1.directions 0 =
      Dir.up ∧
    Dir.down ≠ Dir.up := by
  decide
